import Mathlib

set_option autoImplicit false

/-!
Shallow embedding of `src/cotat/cotat.py` (function `main`) and of the
module-level facts needed by the claims.  Tables are lists of rows; the
`networkx` graph is a record of node entries (id, attributes) and edge
entries (endpoint, endpoint, attributes).  Fallible passes (dict lookups
that can raise `KeyError`) return `Option`.
-/

namespace Cotat

/-- Row of the nodes table after `nodes.reset_index().rename(columns=...)`
(cotat.py line 171): `id` holds the value of the original index, `caseVal`
the `case` column (`None` or a case number), `date` the test date (days
since an epoch, `None` when missing), and the three group columns (the
empty string models an empty group cell, the value the code guards with
`k != ''`).  The positional index of a row — what pandas exposes as
`nodes.index` after `reset_index` — is the row's position in the list. -/
structure NodeRow where
  id : Nat
  caseVal : Option Nat
  date : Option Nat
  group_1 : String
  group_2 : String
  group_3 : String
deriving Repr, DecidableEq, Inhabited

/-- Row of the edges table: the `source` and `target` columns (node ids).
The derived `edge` column of line 176 is the pair itself. -/
structure EdgeRow where
  source : Nat
  target : Nat
deriving Repr, DecidableEq, Inhabited

/-- Edge attribute dictionary.  `srcAttr`/`tgtAttr` model the `source` and
`target` attributes set from `edges.columns[:-1]` (lines 208-209); the
rest are set by `add_edge(..., dummy=1, edge_type=group)` (line 222) and
the alpha/dash/weight passes.  A field is `none` when the key is absent
from the edge's attribute dict. -/
structure EAttrs where
  srcAttr : Option Nat
  tgtAttr : Option Nat
  dummy : Option Nat
  edge_type : Option String
  alpha : Option ℚ
  dash : Option (List Nat)
  weight : Option ℚ
deriving Repr, DecidableEq, Inhabited

/-- Node attribute dictionary.  `row` models the per-column attributes
attached from the nodes table keyed by id (lines 200-201; the code
attaches `nodes.columns[3:]` column by column, which we bundle as the row
since no claim depends on individual table-derived node attributes);
`dummy`, `edge_type`, `size`, `alpha`, `color` are the attributes `main`
sets explicitly (lines 202-203, 226, 233, 237). -/
structure NAttrs where
  row : Option NodeRow
  dummy : Option Nat
  edge_type : Option String
  size : Option Nat
  alpha : Option ℚ
  color : Option String
deriving Repr, DecidableEq, Inhabited

/-- An `nx.Graph`: node entries (each node once) and edge entries (each
unordered pair at most once, stored in insertion orientation). -/
structure Graph where
  nodes : List (Nat × NAttrs)
  edges : List (Nat × Nat × EAttrs)
deriving Repr, DecidableEq, Inhabited

/-- Membership test for nodes (`u in G`). -/
def hasNode (G : Graph) (u : Nat) : Bool :=
  G.nodes.any fun p => p.1 == u

/-- Attribute dict of node `u`, when `u` is a node. -/
def nodeAttr (G : Graph) (u : Nat) : Option NAttrs :=
  (G.nodes.find? fun p => p.1 == u).map Prod.snd

/-- Membership test for edges (`G.has_edge(u, v)`); edges are undirected,
so both stored orientations match. -/
def hasEdge (G : Graph) (u v : Nat) : Bool :=
  G.edges.any fun e => (e.1 == u && e.2.1 == v) || (e.1 == v && e.2.1 == u)

/-- Attribute dict of the edge between `u` and `v`, when present. -/
def edgeAttr (G : Graph) (u v : Nat) : Option EAttrs :=
  (G.edges.find? fun e => (e.1 == u && e.2.1 == v) || (e.1 == v && e.2.1 == u)).map
    fun e => e.2.2

/-- Add node `u` with an empty attribute dict unless it is already a node
(`nx` ignores re-added nodes). -/
def addNodeIfAbsent (G : Graph) (u : Nat) : Graph :=
  if hasNode G u then G else ⟨G.nodes ++ [(u, default)], G.edges⟩

/-- Append a new edge entry with attributes `a`, first adding missing
endpoints as attribute-less nodes (what `G.add_edge` does for an edge not
yet present). -/
def addEdgeNew (G : Graph) (u v : Nat) (a : EAttrs) : Graph :=
  let G1 := addNodeIfAbsent (addNodeIfAbsent G u) v
  ⟨G1.nodes, G1.edges ++ [(u, v, a)]⟩

/-- Model of `G.add_edge(u, v)` with no attribute arguments (used by
`add_edges_from`, line 207): a no-op when the edge exists, otherwise a new
edge with an empty attribute dict. -/
def addEdge (G : Graph) (u v : Nat) : Graph :=
  if hasEdge G u v then G else addEdgeNew G u v default

/-- Model of `nx.set_node_attributes(G, values=const, ...)`: update every
node's attribute dict. -/
def mapNodeAttrs (f : NAttrs → NAttrs) (G : Graph) : Graph :=
  ⟨G.nodes.map fun p => (p.1, f p.2), G.edges⟩

/-- Model of `nx.set_node_attributes(G, values=dict, ...)`: for each
`(key, value)` item, update the node `key` when it exists and ignore the
item otherwise; later items for the same key overwrite earlier ones, as
`dict` construction does. -/
def setNodeAttrMap {α : Type} (kvs : List (Nat × α)) (upd : NAttrs → α → NAttrs)
    (G : Graph) : Graph :=
  kvs.foldl
    (fun G2 kv =>
      ⟨G2.nodes.map fun p => if p.1 == kv.1 then (p.1, upd p.2 kv.2) else p, G2.edges⟩)
    G

/-- Update the attribute dict of the edge between `u` and `v` (either
orientation), leaving the graph unchanged when the edge is absent. -/
def updEdge (G : Graph) (u v : Nat) (f : EAttrs → EAttrs) : Graph :=
  ⟨G.nodes,
    G.edges.map fun e =>
      if (e.1 == u && e.2.1 == v) || (e.1 == v && e.2.1 == u)
      then (e.1, e.2.1, f e.2.2) else e⟩

/-- The hard-coded group columns of `main` (line 211). -/
def groups : List String := ["group_1", "group_2", "group_3"]

/-- Column access `row[g]` for a group column name `g`. -/
def grpVal (r : NodeRow) (g : String) : String :=
  if g == "group_1" then r.group_1
  else if g == "group_2" then r.group_2
  else if g == "group_3" then r.group_3
  else ""

/-- Positional indices of the rows whose `g` column equals `k`:
`list(nodes[nodes[group] == k].index)` (line 218), where after
`reset_index` the index of row `p` is its position `p`. -/
def memberIdx (rows : List NodeRow) (g k : String) : List Nat :=
  (List.range rows.length).filter fun p => grpVal (rows.getD p default) g == k

/-- Inner double loop of the membership pass (lines 219-222): for every
`i < j`, add an edge between `members[i]` and `members[j]` with `dummy=1`
and `edge_type=g`, unless that edge is already present. -/
def addPairEdges (g : String) (members : List Nat) (G : Graph) : Graph :=
  (List.range members.length).foldl
    (fun G2 i =>
      (List.range members.length).foldl
        (fun G3 j =>
          if i < j && !(hasEdge G3 (members.getD i 0) (members.getD j 0)) then
            addEdgeNew G3 (members.getD i 0) (members.getD j 0)
              { (default : EAttrs) with dummy := some 1, edge_type := some g }
          else G3)
        G2)
    G

/-- One group column of the membership pass (lines 214-222).  The code
iterates over `value_counts().to_dict()` — each distinct column value `k`
with its number of occurrences `v` — guarded by `k != '' and v > 1`; the
occurrence count of `k` is the number of matching rows,
`(memberIdx rows g k).length`.  `value_counts` orders by descending
count; the order does not affect the result (distinct values have
disjoint member sets), and we iterate in `dedup` order. -/
def addGroupEdges (rows : List NodeRow) (g : String) (G : Graph) : Graph :=
  ((rows.map fun r => grpVal r g).dedup).foldl
    (fun G2 k =>
      if k != "" && (memberIdx rows g k).length > 1 then
        addPairEdges g (memberIdx rows g k) G2
      else G2)
    G

/-- The whole membership pass: the loop `for group in groups` of line 214. -/
def membershipPass (rows : List NodeRow) (G : Graph) : Graph :=
  groups.foldl (fun G2 g => addGroupEdges rows g G2) G

/-- The flag of line 179: `limit = False`, hard-coded, so the
node-limiting branch of lines 181-193 is dead code and the tables reach
graph construction unfiltered. -/
def limit : Bool := false

/-- The flag of line 180, likewise hard-coded. -/
def limit_all : Bool := false

/-- Node part of graph construction (lines 196-203): starting from the
empty graph, add the `id` values as nodes (`add_nodes_from`), attach the
table columns as node attributes keyed by id, and set the node attributes
`dummy=0` and `edge_type="contact"`. -/
def nodeStage (rows : List NodeRow) : Graph :=
  mapNodeAttrs (fun a => { a with edge_type := some "contact" })
    (mapNodeAttrs (fun a => { a with dummy := some 0 })
      (setNodeAttrMap (rows.map fun r => (r.id, r))
        (fun a r => { a with row := some r })
        (rows.foldl (fun G r => addNodeIfAbsent G r.id) ⟨[], []⟩)))

/-- Graph construction of lines 195-209: the node part, then an edge for
every row of the edges table (`add_edges_from`), then the edge-table
columns (`source`, `target`) attached as edge attributes keyed by the
`edge` pair.  The `len(edges) > 0` guard is subsumed: every fold over an
empty list is the identity. -/
def buildBase (rows : List NodeRow) (ers : List EdgeRow) : Graph :=
  ers.foldl
    (fun G er =>
      updEdge G er.source er.target
        fun a => { a with srcAttr := some er.source, tgtAttr := some er.target })
    (ers.foldl (fun G er => addEdge G er.source er.target) (nodeStage rows))

/-- Value of the dead lookup table of lines 229-230:
`alphas = np.linspace(1, 0.5, 15)` has step `0.5 / 14 = 1/28`.  `main`
builds it and then assigns the constant alpha `1` instead (the gradient
assignment of line 232 is commented out under a TODO). -/
def alphas : List ℚ :=
  (List.range 15).map fun k => 1 - (k : ℚ) * (1 / 28)

/-- Lookup of a two-entry dict `{0: x, 1: y}` at a dummy value; any other
key raises `KeyError`, modelled as `none`. -/
def dummyMap {α : Type} (x y : α) (d : Nat) : Option α :=
  if d == 0 then some x else if d == 1 then some y else none

/-- Option-valued traversal of a list, failing when any element fails
(the way a dict comprehension either completes or raises). -/
def mapMO {α β : Type} (F : α → Option β) : List α → Option (List β)
  | [] => some []
  | a :: l => do
    let b ← F a
    let l2 ← mapMO F l
    pure (b :: l2)

/-- Pass over the edges keyed by the `dummy` attribute, modelling
`{k: table[v] for k, v in nx.get_edge_attributes(G, 'dummy').items()}`
followed by `nx.set_edge_attributes`: edges without a `dummy` attribute
are not in the dict and are skipped; a `dummy` value outside the table's
keys raises `KeyError`, making the whole pass fail. -/
def mapDummyEdges {α : Type} (f : Nat → Option α) (upd : EAttrs → α → EAttrs)
    (G : Graph) : Option Graph := do
  let es ← mapMO (fun e =>
    match e.2.2.dummy with
    | none => some e
    | some d => (f d).map fun x => (e.1, e.2.1, upd e.2.2 x)) G.edges
  pure ⟨G.nodes, es⟩

/-- Pass over the edges keyed by the `edge_type` attribute through a
fallible lookup (the dict `edge_type_to_w`), skipping edges without the
attribute. -/
def mapEtypeEdges {α : Type} (f : String → Option α) (upd : EAttrs → α → EAttrs)
    (G : Graph) : Option Graph := do
  let es ← mapMO (fun e =>
    match e.2.2.edge_type with
    | none => some e
    | some t => (f t).map fun x => (e.1, e.2.1, upd e.2.2 x)) G.edges
  pure ⟨G.nodes, es⟩

/-- The dict `edge_type_to_w` of lines 247-249: `contact` maps to weight
`1` and every group column to `0.05`. -/
def edge_type_to_w : List (String × ℚ) :=
  ("contact", 1) :: groups.map fun g => (g, 1 / 20)

/-- Color assigned to a row by line 236: blue `#65ADFF` when `case` is
`None`, red `#DC0000` otherwise. -/
def rowColor (r : NodeRow) : String :=
  if r.caseVal == none then "#65ADFF" else "#DC0000"

/-- The node-color dict of line 236: `nodes['case'].apply(...).to_dict()`
is keyed by the positional index of the row. -/
def colorMap (rows : List NodeRow) : List (Nat × String) :=
  rows.enum.map fun p => (p.1, rowColor p.2)

/-- Attribute passes of lines 226-252: node size `9`, node alpha the
constant `1` (line 233; the `to_alpha` gradient is dead code), node color
by presence of `case` (lines 236-237), then edge alpha/dash/weight keyed
by `dummy` (`{0:1, 1:0.1}`, `{0:[], 1:[5,5]}`, `{0:1, 1:0.05}`) and edge
weight keyed by `edge_type` through `edge_type_to_w`. -/
def attrStage (rows : List NodeRow) (G : Graph) : Option Graph := do
  let G := mapNodeAttrs (fun a => { a with size := some 9 }) G
  let G := mapNodeAttrs (fun a => { a with alpha := some 1 }) G
  let G := setNodeAttrMap (colorMap rows) (fun a c => { a with color := some c }) G
  let G ← mapDummyEdges (dummyMap 1 (1 / 10)) (fun a q => { a with alpha := some q }) G
  let G ← mapDummyEdges (dummyMap [] [5, 5]) (fun a d => { a with dash := some d }) G
  let G ← mapDummyEdges (dummyMap 1 (1 / 20)) (fun a q => { a with weight := some q }) G
  mapEtypeEdges (fun t => edge_type_to_w.lookup t)
    (fun a q => { a with weight := some q }) G

/-- The graph `main` hands to layout and plotting: base graph, membership
pass, attribute passes. -/
def mainGraph (rows : List NodeRow) (ers : List EdgeRow) : Option Graph :=
  attrStage rows (membershipPass rows (buildBase rows ers))

/-- Edge pass before the `All` tab (lines 260-263): alpha `{0:1, 1:0.1}`,
weight `{0:1, 1:0.01}`, keyed by `dummy`. -/
def allTabPass (G : Graph) : Option Graph := do
  let G ← mapDummyEdges (dummyMap 1 (1 / 10)) (fun a q => { a with alpha := some q }) G
  mapDummyEdges (dummyMap 1 (1 / 100)) (fun a q => { a with weight := some q }) G

/-- Edge pass before the `Contact Traces` tab (lines 267-270): alpha
`{0:1, 1:0}`, weight `{0:1, 1:0}`, keyed by `dummy`. -/
def contactTabPass (G : Graph) : Option Graph := do
  let G ← mapDummyEdges (dummyMap 1 0) (fun a q => { a with alpha := some q }) G
  mapDummyEdges (dummyMap 1 0) (fun a q => { a with weight := some q }) G

/-- Edge pass before the `Groups` tab (lines 274-277): alpha
`{0:0, 1:0.2}`, weight `{0:0, 1:1}`, keyed by `dummy`. -/
def groupsTabPass (G : Graph) : Option Graph := do
  let G ← mapDummyEdges (dummyMap 0 (1 / 5)) (fun a q => { a with alpha := some q }) G
  mapDummyEdges (dummyMap 0 1) (fun a q => { a with weight := some q }) G

/-- Edge pass before the tab of group `g` (lines 284-287): alpha `0.2`
and weight `1` for edges whose `edge_type` is `g`, alpha `0` and weight
`0` for every other edge carrying an `edge_type`; edges without the
attribute are skipped.  These comprehensions are total. -/
def groupTabPass (g : String) (G : Graph) : Graph :=
  ⟨G.nodes,
    G.edges.map fun e =>
      match e.2.2.edge_type with
      | none => e
      | some t =>
        (e.1, e.2.1,
          { e.2.2 with
            alpha := some (if t == g then 1 / 5 else 0),
            weight := some (if t == g then 1 else 0) })⟩

/-- Keyword arguments of the `nx.spring_layout` call in `node_positions`
(line 25): `k=0.13`. -/
def spring_layout_k : ℚ := 13 / 100

/-- Keyword argument `seed=1` of the `nx.spring_layout` call (line 25):
the layout is invoked with a fixed seed, never with fresh entropy. -/
def spring_layout_seed : Nat := 1

/-- Keyword argument `iterations=150` of the `nx.spring_layout` call. -/
def spring_layout_iterations : Nat := 150

/-- Everything `main` passes to the plotting layer: the page title, the
per-row positions written into the nodes table by `node_positions`, and
the graph snapshot each tab's renderer is built from (`from_networkx`
copies the graph state at `create_plot` time). -/
structure MainOut where
  title : String
  xy : List (ℚ × ℚ)
  tabs : List Graph
deriving Repr, DecidableEq

/-- The pipeline of `main` up to the data handed to bokeh.  The layout
function stands for `nx.spring_layout`, a deterministic function of the
graph and its keyword arguments `k`, `seed` and `iterations`; `main`
passes the fixed values defined above. -/
def runMain (layout : Graph → ℚ → Nat → Nat → Nat → ℚ × ℚ)
    (date_str : String) (rows : List NodeRow) (ers : List EdgeRow) :
    Option MainOut := do
  let G ← mainGraph rows ers
  let pos := fun u => layout G spring_layout_k spring_layout_seed spring_layout_iterations u
  let xy := rows.map fun r => pos r.id
  let G1 ← allTabPass G
  let G2 ← contactTabPass G1
  let G3 ← groupsTabPass G2
  let H1 := groupTabPass "group_1" G3
  let H2 := groupTabPass "group_2" H1
  let H3 := groupTabPass "group_3" H2
  pure ⟨date_str ++ " Contact Tracing Visualization", xy, [G1, G2, G3, H1, H2, H3]⟩

/-- Names of the module-level callables defined by `src/cotat/cotat.py`:
only `main` (the helpers `node_positions`, ..., `create_plot` are local to
`main`). -/
def cotatModuleDefs : List String := ["main"]

/-- Names the test suite imports from `cotat.cotat`
(`src/cotat/tests/test_cotat.py`, line 5). -/
def testImports : List String := ["visualization"]

/-- Specification predicate for an edge entry created by the membership
pass: no self-loop, endpoints are row positions, attributes exactly
`dummy=1` and `edge_type=g` for a group column `g` on which the two rows
agree with a non-empty value. -/
def EdgeEntryP (rows : List NodeRow) (e : Nat × Nat × EAttrs) : Prop :=
  e.1 ≠ e.2.1 ∧ e.1 < rows.length ∧ e.2.1 < rows.length ∧
  ∃ g ∈ groups,
    e.2.2 = { (default : EAttrs) with dummy := some 1, edge_type := some g } ∧
    grpVal (rows.getD e.1 default) g = grpVal (rows.getD e.2.1 default) g ∧
    grpVal (rows.getD e.1 default) g ≠ ""

/-- Relation between a graph and the result of a (fragment of the)
membership pass on it: node entries are preserved and possibly appended
to, edge entries are preserved and the appended ones satisfy
`EdgeEntryP`. -/
def Extends (rows : List NodeRow) (G G2 : Graph) : Prop :=
  (∃ tn, G2.nodes = G.nodes ++ tn) ∧
  (∃ t, G2.edges = G.edges ++ t ∧ ∀ e ∈ t, EdgeEntryP rows e)

/-! Concrete sample tables used to instantiate theorems. -/

/-- Positive case tested 0 days ago (row position and id both 0). -/
def rDay0 : NodeRow :=
  { id := 0, caseVal := some 201, date := some 0,
    group_1 := "", group_2 := "", group_3 := "" }

/-- Positive case tested 13 days ago — still inside a two-week window,
but a different number of days since the positive test than `rDay0`. -/
def rDay13 : NodeRow :=
  { id := 1, caseVal := some 202, date := some 13,
    group_1 := "", group_2 := "", group_3 := "" }

/-- Positive case tested 100 days ago — far outside any two-week window. -/
def rDay100 : NodeRow :=
  { id := 0, caseVal := some 101, date := some 100,
    group_1 := "", group_2 := "", group_3 := "" }

/-- Row with no positive case (`case` is `None`). -/
def rNoCase : NodeRow :=
  { id := 2, caseVal := none, date := none,
    group_1 := "", group_2 := "", group_3 := "" }

/-- Two positive cases with different days-since-positive, both inside
the two-week window. -/
def caseRows2 : List NodeRow := [rDay0, rDay13]

/-- A stale positive case, a fresh one, and a non-case, with ids equal
to their row positions. -/
def caseRows3 : List NodeRow :=
  [rDay100, { rDay0 with id := 1, caseVal := some 102, date := some 3 }, rNoCase]

/-- Row whose original index (hence `id`) is 5, in group `A`. -/
def shiftS5 : NodeRow :=
  { id := 5, caseVal := none, date := none,
    group_1 := "A", group_2 := "", group_3 := "" }

/-- Row whose original index (hence `id`) is 6, also in group `A`. -/
def shiftS6 : NodeRow :=
  { id := 6, caseVal := none, date := none,
    group_1 := "A", group_2 := "", group_3 := "" }

/-- Nodes table whose original index was not `0..n-1`. -/
def shiftRows : List NodeRow := [shiftS5, shiftS6]

/-- Row at position 0 with id 0, in group `A`. -/
def gA0 : NodeRow :=
  { id := 0, caseVal := none, date := none,
    group_1 := "A", group_2 := "", group_3 := "" }

/-- Row at position 1 with id 1, also in group `A`. -/
def gA1 : NodeRow :=
  { id := 1, caseVal := none, date := none,
    group_1 := "A", group_2 := "", group_3 := "" }

/-- Nodes table whose ids coincide with row positions. -/
def gARows : List NodeRow := [gA0, gA1]

/-- Single row with no group memberships. -/
def plainRow : NodeRow :=
  { id := 0, caseVal := none, date := none,
    group_1 := "", group_2 := "", group_3 := "" }

/-- Small graph with one contact-less membership edge, used to
instantiate the tab-pass theorems. -/
def sampleTabGraph : Graph :=
  ⟨[(0, default), (1, default)],
   [(0, 1, { (default : EAttrs) with dummy := some 1, edge_type := some "group_1" })]⟩

/-!
Claim theorems.
-/

/-- C6: the claim says `cotat.cotat` exposes `contact_graph`,
`_contact_graph` and a callable `visualization` that the tests import; the
module defines only `main`, so the test suite's import of `visualization`
cannot succeed.  (The code contradicts its own tests.) -/
theorem c6_visualization_missing :
    "visualization" ∈ testImports ∧ "visualization" ∉ cotatModuleDefs := by
  decide

/-- C2: the claim says node alpha decreases with days since the positive
test over a two-week window, so nodes with different days-since-positive
inside the window get different alphas.  The code assigns the constant
alpha `1` to every node (line 233; the gradient of lines 229-232 is dead):
two cases tested 0 and 13 days ago both get alpha `1`, though the dead
`alphas` gradient table would have distinguished them. -/
theorem c2_alpha_constant_one :
    (mainGraph caseRows2 []).map
        (fun G => ((nodeAttr G 0).map NAttrs.alpha, (nodeAttr G 1).map NAttrs.alpha))
      = some (some (some 1), some (some 1))
    ∧ caseRows2.map NodeRow.date = [some 0, some 13]
    ∧ alphas.getD 0 0 ≠ alphas.getD 13 0 := by
  refine ⟨by decide, by decide, ?_⟩
  have hr : List.range 15 = [0,1,2,3,4,5,6,7,8,9,10,11,12,13,14] := by decide
  simp only [alphas, hr, List.map]
  norm_num [List.getD]

/-- C3: the claim says node color is determined by how recently the
positive test falls within the time window.  The code colors a node red
exactly when its `case` field is non-null, ignoring dates (line 236, under
the TODO of line 235): a case 100 days old and a case 3 days old are both
red, and only the row without a `case` value is blue. -/
theorem c3_color_ignores_recency :
    (mainGraph caseRows3 []).map
        (fun G => ((nodeAttr G 0).map NAttrs.color, (nodeAttr G 1).map NAttrs.color,
                   (nodeAttr G 2).map NAttrs.color))
      = some (some (some "#DC0000"), some (some "#DC0000"), some (some "#65ADFF"))
    ∧ caseRows3.map NodeRow.date = [some 100, some 3, none] := by
  decide

/-- C10: the pipeline is deterministic — two runs of `main` on equal
inputs (and with the same layout library) produce identical output, and
the spring layout is invoked with the fixed seed `1`. -/
theorem c10_deterministic (layout : Graph → ℚ → Nat → Nat → Nat → ℚ × ℚ)
    (d1 d2 : String) (rows1 rows2 : List NodeRow) (ers1 ers2 : List EdgeRow)
    (hd : d1 = d2) (hr : rows1 = rows2) (he : ers1 = ers2) :
    runMain layout d1 rows1 ers1 = runMain layout d2 rows2 ers2
      ∧ spring_layout_seed = 1 := by
  subst hd
  subst hr
  subst he
  exact ⟨rfl, rfl⟩

/-- Witness for C10 at a concrete layout function and concrete tables. -/
theorem c10_witness :
    runMain (fun _ _ _ _ _ => (0, 0)) "2021-12-01" caseRows2 []
      = runMain (fun _ _ _ _ _ => (0, 0)) "2021-12-01" caseRows2 []
    ∧ spring_layout_seed = 1 :=
  c10_deterministic (fun _ _ _ _ _ => (0, 0)) "2021-12-01" "2021-12-01"
    caseRows2 caseRows2 [] [] rfl rfl rfl

/-- C1, counterexample: two rows in the same group `A` whose ids (original
index values 5 and 6) differ from their positions; the membership pass
connects positions 0 and 1, so the graph contains no edge between the two
nodes (5 and 6) whose `group_1` value is `A`, contradicting the claim as
stated. -/
theorem c1_counterexample :
    grpVal shiftS5 "group_1" = "A" ∧ grpVal shiftS6 "group_1" = "A" ∧ "A" ≠ ""
    ∧ hasNode (membershipPass shiftRows (buildBase shiftRows [])) 5 = true
    ∧ hasNode (membershipPass shiftRows (buildBase shiftRows [])) 6 = true
    ∧ hasEdge (membershipPass shiftRows (buildBase shiftRows [])) 5 6 = false := by
  decide

/-- C4, counterexample: an edge row whose endpoints are not ids of the
nodes table makes its endpoints nodes too (`add_edges_from` creates
missing nodes), so the node set is not exactly the `id` values. -/
theorem c4_counterexample :
    ([shiftS5].all fun r => r.id != 7) = true
    ∧ hasNode (buildBase [shiftS5] [⟨5, 7⟩]) 7 = true := by
  decide

/-- C7, counterexample: with one node in no group and no input edges, the
derived edge set is exactly as large as the input edge set (both empty),
not strictly larger. -/
theorem c7_counterexample :
    (mainGraph [plainRow] []).map (fun G => G.edges.length)
      = some ([] : List EdgeRow).length := by
  decide

/-! Generic fold lemmas: an invariant preserved by every step of a
`foldl` holds of the result, and a property established by one processed
element and preserved afterwards holds of the result. -/

theorem foldl_pres {α β : Type} (f : β → α → β) (P : β → Prop) (l : List α)
    (hstep : ∀ b a, a ∈ l → P b → P (f b a)) (b : β) (hb : P b) :
    P (l.foldl f b) := by
  induction l generalizing b with
  | nil => exact hb
  | cons a t ih =>
    exact ih (fun b2 a2 ha2 => hstep b2 a2 (List.mem_cons_of_mem a ha2)) _
      (hstep b a (List.mem_cons_self a t) hb)

theorem foldl_reach {α β : Type} (f : β → α → β) (P : β → Prop) (l : List α) (x : α)
    (hx : x ∈ l) (hest : ∀ b, P (f b x))
    (hstep : ∀ b a, a ∈ l → P b → P (f b a)) (b : β) :
    P (l.foldl f b) := by
  induction l generalizing b with
  | nil => cases hx
  | cons a t ih =>
    rcases List.mem_cons.mp hx with h | h
    · subst h
      exact foldl_pres f P t
        (fun b2 a2 ha2 hb2 => hstep b2 a2 (List.mem_cons_of_mem x ha2) hb2) _ (hest b)
    · exact ih h (fun b2 a2 ha2 hb2 => hstep b2 a2 (List.mem_cons_of_mem a ha2) hb2) _

/-! Small structural lemmas about the graph operations. -/

theorem edges_addNodeIfAbsent (G : Graph) (u : Nat) :
    (addNodeIfAbsent G u).edges = G.edges := by
  unfold addNodeIfAbsent
  split <;> rfl

theorem nodes_addNodeIfAbsent (G : Graph) (u : Nat) :
    ∃ tn, (addNodeIfAbsent G u).nodes = G.nodes ++ tn := by
  unfold addNodeIfAbsent
  split
  · exact ⟨[], (List.append_nil _).symm⟩
  · exact ⟨[(u, default)], rfl⟩

theorem hasEdge_addEdgeNew_self (G : Graph) (u v : Nat) (a : EAttrs) :
    hasEdge (addEdgeNew G u v a) u v = true := by
  simp [addEdgeNew, hasEdge, edges_addNodeIfAbsent, List.any_append]

theorem hasEdge_addEdgeNew_mono {G : Graph} {x y : Nat} (u v : Nat) (a : EAttrs)
    (h : hasEdge G x y = true) : hasEdge (addEdgeNew G u v a) x y = true := by
  simp only [addEdgeNew, hasEdge, edges_addNodeIfAbsent, List.any_append]
  simp only [hasEdge] at h
  rw [h]
  rfl

theorem hasEdge_symm (G : Graph) (u v : Nat) : hasEdge G u v = hasEdge G v u := by
  unfold hasEdge
  induction G.edges with
  | nil => rfl
  | cons e t ih =>
    simp only [List.any_cons, ih]
    rw [Bool.or_comm (e.1 == u && e.2.1 == v) (e.1 == v && e.2.1 == u)]

/-! Lemmas about `Extends`. -/

theorem extends_refl (rows : List NodeRow) (G : Graph) : Extends rows G G :=
  ⟨⟨[], (List.append_nil _).symm⟩,
   ⟨[], (List.append_nil _).symm, fun e he => absurd he (List.not_mem_nil e)⟩⟩

theorem extends_trans {rows : List NodeRow} {G1 G2 G3 : Graph}
    (h12 : Extends rows G1 G2) (h23 : Extends rows G2 G3) : Extends rows G1 G3 := by
  obtain ⟨⟨tn1, hn1⟩, ⟨t1, he1, hp1⟩⟩ := h12
  obtain ⟨⟨tn2, hn2⟩, ⟨t2, he2, hp2⟩⟩ := h23
  refine ⟨⟨tn1 ++ tn2, ?_⟩, ⟨t1 ++ t2, ?_, ?_⟩⟩
  · rw [hn2, hn1, List.append_assoc]
  · rw [he2, he1, List.append_assoc]
  · intro e he
    rcases List.mem_append.mp he with h | h
    · exact hp1 e h
    · exact hp2 e h

theorem extends_addEdgeNew {rows : List NodeRow} (G : Graph) {u v : Nat} {a : EAttrs}
    (h : EdgeEntryP rows (u, v, a)) : Extends rows G (addEdgeNew G u v a) := by
  obtain ⟨t1, h1⟩ := nodes_addNodeIfAbsent G u
  obtain ⟨t2, h2⟩ := nodes_addNodeIfAbsent (addNodeIfAbsent G u) v
  refine ⟨⟨t1 ++ t2, ?_⟩, ⟨[(u, v, a)], ?_, ?_⟩⟩
  · show (addNodeIfAbsent (addNodeIfAbsent G u) v).nodes = _
    rw [h2, h1, List.append_assoc]
  · show (addNodeIfAbsent (addNodeIfAbsent G u) v).edges ++ _ = _
    rw [edges_addNodeIfAbsent, edges_addNodeIfAbsent]
  · intro e he
    rcases List.mem_singleton.mp he with rfl
    exact h

theorem hasEdge_of_extends {rows : List NodeRow} {G G2 : Graph} {u v : Nat}
    (h : Extends rows G G2) (he : hasEdge G u v = true) : hasEdge G2 u v = true := by
  obtain ⟨_, ⟨t, ht, _⟩⟩ := h
  unfold hasEdge at he ⊢
  rw [ht, List.any_append, he]
  rfl

theorem nodeAttr_of_extends {rows : List NodeRow} {G G2 : Graph} {u : Nat}
    (h : Extends rows G G2) (hn : hasNode G u = true) : nodeAttr G2 u = nodeAttr G u := by
  obtain ⟨⟨tn, htn⟩, _⟩ := h
  unfold nodeAttr
  rw [htn, List.find?_append]
  cases hfind : G.nodes.find? fun p => p.1 == u with
  | none =>
    exfalso
    obtain ⟨p, hp, hpu⟩ := List.any_eq_true.mp hn
    exact absurd hpu (by simpa using List.find?_eq_none.mp hfind p hp)
  | some y => rfl

theorem edgeAttr_of_extends {rows : List NodeRow} {G G2 : Graph} {u v : Nat}
    (h : Extends rows G G2) (he : hasEdge G u v = true) :
    edgeAttr G2 u v = edgeAttr G u v := by
  obtain ⟨_, ⟨t, ht, _⟩⟩ := h
  unfold edgeAttr
  rw [ht, List.find?_append]
  cases hfind : G.edges.find?
      fun e => (e.1 == u && e.2.1 == v) || (e.1 == v && e.2.1 == u) with
  | none =>
    exfalso
    obtain ⟨e, hmem, hp⟩ := List.any_eq_true.mp he
    exact absurd hp (by simpa using List.find?_eq_none.mp hfind e hmem)
  | some y => rfl

theorem no_selfloop_of_extends {rows : List NodeRow} {G G2 : Graph} {u : Nat}
    (h : Extends rows G G2) (he : hasEdge G2 u u = true) : hasEdge G u u = true := by
  obtain ⟨_, ⟨t, ht, hP⟩⟩ := h
  unfold hasEdge at he
  rw [ht, List.any_append] at he
  rcases Bool.or_eq_true_iff.mp he with h1 | h1
  · exact h1
  · obtain ⟨e, hmem, hp⟩ := List.any_eq_true.mp h1
    exfalso
    have h1e := (hP e hmem).1
    rcases Bool.or_eq_true_iff.mp hp with h2 | h2 <;>
      · obtain ⟨ha, hb⟩ := Bool.and_eq_true_iff.mp h2
        exact h1e ((eq_of_beq ha).trans (eq_of_beq hb).symm)

/-! Lemmas about `memberIdx` and list ordering. -/

theorem memberIdx_pairwise (rows : List NodeRow) (g k : String) :
    (memberIdx rows g k).Pairwise (· < ·) := by
  unfold memberIdx
  exact (List.pairwise_lt_range _).filter _

theorem memberIdx_mem {rows : List NodeRow} {g k : String} {p : Nat}
    (hp : p ∈ memberIdx rows g k) :
    p < rows.length ∧ grpVal (rows.getD p default) g = k := by
  unfold memberIdx at hp
  rcases List.mem_filter.mp hp with ⟨hr, hv⟩
  exact ⟨List.mem_range.mp hr, by simpa using hv⟩

theorem mem_memberIdx {rows : List NodeRow} {g k : String} {p : Nat}
    (hp : p < rows.length) (hv : grpVal (rows.getD p default) g = k) :
    p ∈ memberIdx rows g k := by
  unfold memberIdx
  exact List.mem_filter.mpr ⟨List.mem_range.mpr hp, by simp only [hv, beq_self_eq_true]⟩

theorem memberIdx_getD_mem {rows : List NodeRow} {g k : String} {i : Nat}
    (hi : i < (memberIdx rows g k).length) :
    (memberIdx rows g k).getD i 0 ∈ memberIdx rows g k := by
  rw [List.getD_eq_getElem _ _ hi]
  exact List.getElem_mem hi

theorem getD_lt_of_pairwise {l : List Nat} (hl : l.Pairwise (· < ·)) {i j : Nat}
    (hij : i < j) (hj : j < l.length) : l.getD i 0 < l.getD j 0 := by
  have hi : i < l.length := lt_trans hij hj
  rw [List.getD_eq_getElem _ _ hi, List.getD_eq_getElem _ _ hj]
  simpa [List.get_eq_getElem] using List.pairwise_iff_get.mp hl ⟨i, hi⟩ ⟨j, hj⟩ hij

/-! The membership pass only extends a graph, with well-described new
edge entries. -/

theorem extends_addPairEdges (rows : List NodeRow) (g k : String) (hg : g ∈ groups)
    (hk : k ≠ "") (G : Graph) :
    Extends rows G (addPairEdges g (memberIdx rows g k) G) := by
  unfold addPairEdges
  refine foldl_pres _ (Extends rows G) _ ?_ G (extends_refl rows G)
  intro b i hi hb
  refine extends_trans hb ?_
  refine foldl_pres _ (Extends rows b) _ ?_ b (extends_refl rows b)
  intro b2 j hj hb2
  refine extends_trans hb2 ?_
  split
  case isTrue h =>
    have hij : i < j := by
      rcases Bool.and_eq_true_iff.mp h with ⟨h1, _⟩
      exact of_decide_eq_true h1
    have hi2 : i < (memberIdx rows g k).length := List.mem_range.mp hi
    have hj2 : j < (memberIdx rows g k).length := List.mem_range.mp hj
    apply extends_addEdgeNew
    have hmi := memberIdx_mem (memberIdx_getD_mem hi2)
    have hmj := memberIdx_mem (memberIdx_getD_mem hj2)
    refine ⟨Nat.ne_of_lt (getD_lt_of_pairwise (memberIdx_pairwise rows g k) hij hj2),
      hmi.1, hmj.1, g, hg, rfl, ?_, ?_⟩
    · rw [hmi.2, hmj.2]
    · rw [hmi.2]
      exact hk
  case isFalse => exact extends_refl rows b2

theorem extends_addGroupEdges (rows : List NodeRow) (g : String) (hg : g ∈ groups)
    (G : Graph) : Extends rows G (addGroupEdges rows g G) := by
  unfold addGroupEdges
  refine foldl_pres _ (Extends rows G) _ ?_ G (extends_refl rows G)
  intro b k hkmem hb
  refine extends_trans hb ?_
  split
  case isTrue h =>
    have hkne : k ≠ "" := by
      rcases Bool.and_eq_true_iff.mp h with ⟨h1, _⟩
      simpa using h1
    exact extends_addPairEdges rows g k hg hkne b
  case isFalse => exact extends_refl rows b

theorem extends_membershipPass (rows : List NodeRow) (G : Graph) :
    Extends rows G (membershipPass rows G) := by
  unfold membershipPass
  refine foldl_pres _ (Extends rows G) _ ?_ G (extends_refl rows G)
  intro b g hgmem hb
  exact extends_trans hb (extends_addGroupEdges rows g hgmem b)

/-- C8: the membership pass is purely additive.  Every edge present
before the pass is still present afterwards with an unchanged attribute
dict (in particular a contact edge between two members of the same group
is never relabeled), every node keeps its attribute dict, and the pass
adds no self-loop. -/
theorem c8_membership_frame (rows : List NodeRow) (G : Graph) :
    (∀ u v, hasEdge G u v = true →
      hasEdge (membershipPass rows G) u v = true
        ∧ edgeAttr (membershipPass rows G) u v = edgeAttr G u v)
    ∧ (∀ u, hasNode G u = true →
        nodeAttr (membershipPass rows G) u = nodeAttr G u)
    ∧ (∀ u, hasEdge (membershipPass rows G) u u = true → hasEdge G u u = true) := by
  have hx := extends_membershipPass rows G
  exact ⟨fun u v he => ⟨hasEdge_of_extends hx he, edgeAttr_of_extends hx he⟩,
    fun u hn => nodeAttr_of_extends hx hn,
    fun u he => no_selfloop_of_extends hx he⟩

/-- Witness for C8: a contact edge between two members of group `A`
survives the membership pass with unchanged attributes, and node 0 keeps
its attribute dict. -/
theorem c8_witness :
    hasEdge (buildBase gARows [⟨0, 1⟩]) 0 1 = true
    ∧ hasEdge (membershipPass gARows (buildBase gARows [⟨0, 1⟩])) 0 1 = true
    ∧ edgeAttr (membershipPass gARows (buildBase gARows [⟨0, 1⟩])) 0 1
        = edgeAttr (buildBase gARows [⟨0, 1⟩]) 0 1
    ∧ hasNode (buildBase gARows [⟨0, 1⟩]) 0 = true
    ∧ nodeAttr (membershipPass gARows (buildBase gARows [⟨0, 1⟩])) 0
        = nodeAttr (buildBase gARows [⟨0, 1⟩]) 0 := by
  have h := c8_membership_frame gARows (buildBase gARows [⟨0, 1⟩])
  have he : hasEdge (buildBase gARows [⟨0, 1⟩]) 0 1 = true := by decide
  have hn : hasNode (buildBase gARows [⟨0, 1⟩]) 0 = true := by decide
  exact ⟨he, (h.1 0 1 he).1, (h.1 0 1 he).2, hn, h.2.1 0 hn⟩

/-! Reachability: the membership pass really creates an edge for every
same-group pair of row positions. -/

theorem one_lt_length_of_two_mem {α : Type} {l : List α} {p q : α}
    (hp : p ∈ l) (hq : q ∈ l) (hne : p ≠ q) : 1 < l.length := by
  cases l with
  | nil => cases hp
  | cons a t =>
    cases t with
    | nil =>
      rw [List.mem_singleton] at hp hq
      exact absurd (hp.trans hq.symm) hne
    | cons b t2 =>
      simp only [List.length_cons]
      omega

theorem hasEdge_addPairEdges_mono {G : Graph} {p q : Nat} (g : String)
    (members : List Nat) (h : hasEdge G p q = true) :
    hasEdge (addPairEdges g members G) p q = true := by
  unfold addPairEdges
  refine foldl_pres _ (fun b => hasEdge b p q = true) _ ?_ G h
  intro b i _ hb
  refine foldl_pres _ (fun b2 => hasEdge b2 p q = true) _ ?_ b hb
  intro b2 j _ hb2
  dsimp only
  split
  · exact hasEdge_addEdgeNew_mono _ _ _ hb2
  · exact hb2

theorem addPairEdges_reach (g : String) (members : List Nat) {p q : Nat}
    (hpair : members.Pairwise (· < ·)) (hpm : p ∈ members) (hqm : q ∈ members)
    (hpq : p < q) (G : Graph) : hasEdge (addPairEdges g members G) p q = true := by
  obtain ⟨i, hi, hgi⟩ := List.mem_iff_getElem.mp hpm
  obtain ⟨j, hj, hgj⟩ := List.mem_iff_getElem.mp hqm
  have hdi : members.getD i 0 = p := by
    rw [List.getD_eq_getElem _ _ hi]
    exact hgi
  have hdj : members.getD j 0 = q := by
    rw [List.getD_eq_getElem _ _ hj]
    exact hgj
  have hij : i < j := by
    rcases Nat.lt_trichotomy i j with h | h | h
    · exact h
    · exfalso
      subst h
      rw [hdi] at hdj
      omega
    · exfalso
      have := getD_lt_of_pairwise hpair h hi
      rw [hdi, hdj] at this
      omega
  unfold addPairEdges
  refine foldl_reach _ (fun b => hasEdge b p q = true) _ i
    (List.mem_range.mpr (lt_trans hij hj)) ?_ ?_ G
  · intro b
    dsimp only
    refine foldl_reach _ (fun b2 => hasEdge b2 p q = true) _ j
      (List.mem_range.mpr hj) ?_ ?_ b
    · intro b2
      dsimp only
      rw [hdi, hdj]
      cases hE : hasEdge b2 p q with
      | true => simp [hE]
      | false => simp [hij, hasEdge_addEdgeNew_self]
    · intro b2 a _ hb2
      dsimp only
      split
      · exact hasEdge_addEdgeNew_mono _ _ _ hb2
      · exact hb2
  · intro b a _ hb
    dsimp only
    refine foldl_pres _ (fun b2 => hasEdge b2 p q = true) _ ?_ b hb
    intro b2 a2 _ hb2
    dsimp only
    split
    · exact hasEdge_addEdgeNew_mono _ _ _ hb2
    · exact hb2

theorem addGroupEdges_reach (rows : List NodeRow) (g : String) {p q : Nat}
    (hp : p < rows.length) (hq : q < rows.length) (hpq : p < q)
    (hagree : grpVal (rows.getD p default) g = grpVal (rows.getD q default) g)
    (hne : grpVal (rows.getD p default) g ≠ "") (G : Graph) :
    hasEdge (addGroupEdges rows g G) p q = true := by
  have hpm : p ∈ memberIdx rows g (grpVal (rows.getD p default) g) :=
    mem_memberIdx hp rfl
  have hqm : q ∈ memberIdx rows g (grpVal (rows.getD p default) g) :=
    mem_memberIdx hq hagree.symm
  have hlen : 1 < (memberIdx rows g (grpVal (rows.getD p default) g)).length :=
    one_lt_length_of_two_mem hpm hqm (Nat.ne_of_lt hpq)
  unfold addGroupEdges
  refine foldl_reach _ (fun b => hasEdge b p q = true) _
    (grpVal (rows.getD p default) g) ?_ ?_ ?_ G
  · apply List.mem_dedup.mpr
    refine List.mem_map.mpr ⟨rows.getD p default, ?_, rfl⟩
    rw [List.getD_eq_getElem _ _ hp]
    exact List.getElem_mem hp
  · intro b
    dsimp only
    have h1 : (grpVal (rows.getD p default) g != "") = true := bne_iff_ne.mpr hne
    have h2 : decide ((memberIdx rows g (grpVal (rows.getD p default) g)).length > 1)
        = true := decide_eq_true hlen
    have hguard : ((grpVal (rows.getD p default) g != "")
        && decide ((memberIdx rows g (grpVal (rows.getD p default) g)).length > 1))
        = true := by
      rw [h1, h2]
      rfl
    simp only [hguard]
    simp only [if_pos]
    exact addPairEdges_reach g _ (memberIdx_pairwise rows g _) hpm hqm hpq b
  · intro b a _ hb
    dsimp only
    split
    · exact hasEdge_addPairEdges_mono _ _ hb
    · exact hb

theorem membershipPass_reach (rows : List NodeRow) {g : String} {p q : Nat}
    (hg : g ∈ groups) (hp : p < rows.length) (hq : q < rows.length) (hpq : p < q)
    (hagree : grpVal (rows.getD p default) g = grpVal (rows.getD q default) g)
    (hne : grpVal (rows.getD p default) g ≠ "") (G : Graph) :
    hasEdge (membershipPass rows G) p q = true := by
  unfold membershipPass
  refine foldl_reach _ (fun b => hasEdge b p q = true) _ g hg ?_ ?_ G
  · intro b
    exact addGroupEdges_reach rows g hp hq hpq hagree hne b
  · intro b a ha hb
    exact hasEdge_of_extends (extends_addGroupEdges rows a ha b) hb

/-- C1 (amended): after the membership pass of `main`, for every group
column `g` and every pair of distinct row positions `p`, `q` holding the
same non-empty `g`-value, the graph has an edge between `p` and `q` — the
positional indices, which coincide with the nodes exactly when the `id`
column equals the positional index — and every edge entry the pass adds
carries exactly `dummy=1` and `edge_type=g` for a group column `g` on
which its two endpoints agree with a non-empty value. -/
theorem c1_membership_edges (rows : List NodeRow) (ers : List EdgeRow)
    (g : String) (p q : Nat) (hg : g ∈ groups)
    (hp : p < rows.length) (hq : q < rows.length) (hpq : p ≠ q)
    (hagree : grpVal (rows.getD p default) g = grpVal (rows.getD q default) g)
    (hne : grpVal (rows.getD p default) g ≠ "") :
    hasEdge (membershipPass rows (buildBase rows ers)) p q = true
    ∧ ∀ e ∈ (membershipPass rows (buildBase rows ers)).edges,
        e ∉ (buildBase rows ers).edges → EdgeEntryP rows e := by
  constructor
  · rcases Nat.lt_or_ge p q with h | h
    · exact membershipPass_reach rows hg hp hq h hagree hne _
    · have h2 : q < p := Nat.lt_of_le_of_ne h (Ne.symm hpq)
      rw [hasEdge_symm]
      exact membershipPass_reach rows hg hq hp h2 hagree.symm (hagree ▸ hne) _
  · intro e he hnot
    rcases extends_membershipPass rows (buildBase rows ers) with ⟨_, ⟨t, ht, hP⟩⟩
    rw [ht] at he
    rcases List.mem_append.mp he with h | h
    · exact absurd h hnot
    · exact hP e h

/-- Witness for C1: on a table whose ids equal the row positions, the
two members of group `A` end up connected. -/
theorem c1_witness :
    hasEdge (membershipPass gARows (buildBase gARows [])) 0 1 = true :=
  (c1_membership_edges gARows [] "group_1" 0 1 (by decide) (by decide) (by decide)
    (by decide) (by decide) (by decide)).1

/-! Characterization of the base graph of lines 195-209. -/

theorem foldl_proj_const {α γ : Type} (f : Graph → α → Graph) (l : List α) (G : Graph)
    (P : Graph → γ) (hstep : ∀ G2 a, a ∈ l → P (f G2 a) = P G2) :
    P (l.foldl f G) = P G := by
  induction l generalizing G with
  | nil => rfl
  | cons a t ih =>
    rw [List.foldl_cons,
      ih _ (fun G2 a2 ha2 => hstep G2 a2 (List.mem_cons_of_mem a ha2)),
      hstep G a (List.mem_cons_self a t)]

theorem any_fst_map (l : List (Nat × NAttrs)) (F : Nat × NAttrs → Nat × NAttrs)
    (hF : ∀ x, (F x).1 = x.1) (u : Nat) :
    ((l.map F).any fun p => p.1 == u) = l.any fun p => p.1 == u := by
  induction l with
  | nil => rfl
  | cons x t ih => simp only [List.map_cons, List.any_cons, ih, hF x]

theorem any_endpoint_map (l : List (Nat × Nat × EAttrs))
    (F : Nat × Nat × EAttrs → Nat × Nat × EAttrs)
    (hF : ∀ e, (F e).1 = e.1 ∧ (F e).2.1 = e.2.1) (u v : Nat) :
    ((l.map F).any fun e => (e.1 == u && e.2.1 == v) || (e.1 == v && e.2.1 == u))
      = l.any fun e => (e.1 == u && e.2.1 == v) || (e.1 == v && e.2.1 == u) := by
  induction l with
  | nil => rfl
  | cons e t ih => simp only [List.map_cons, List.any_cons, ih, (hF e).1, (hF e).2]

theorem hasNode_addNodeIfAbsent (G : Graph) (w u : Nat) :
    hasNode (addNodeIfAbsent G w) u = true ↔ hasNode G u = true ∨ w = u := by
  unfold addNodeIfAbsent
  split
  case isTrue h =>
    constructor
    · exact Or.inl
    · rintro (h2 | rfl)
      · exact h2
      · exact h
  case isFalse h =>
    show hasNode ⟨G.nodes ++ [(w, default)], G.edges⟩ u = true ↔ _
    unfold hasNode
    simp only [List.any_append, List.any_cons, List.any_nil, Bool.or_false,
      Bool.or_eq_true_iff, beq_iff_eq]

theorem hasNode_foldl_rows (rows : List NodeRow) (G : Graph) (u : Nat) :
    hasNode (rows.foldl (fun G2 r => addNodeIfAbsent G2 r.id) G) u = true
      ↔ hasNode G u = true ∨ ∃ r ∈ rows, r.id = u := by
  induction rows generalizing G with
  | nil => simp
  | cons r t ih =>
    rw [List.foldl_cons, ih, hasNode_addNodeIfAbsent]
    constructor
    · rintro ((h | h) | ⟨r2, h2, h3⟩)
      · exact Or.inl h
      · exact Or.inr ⟨r, List.mem_cons_self r t, h⟩
      · exact Or.inr ⟨r2, List.mem_cons_of_mem r h2, h3⟩
    · rintro (h | ⟨r2, h2, h3⟩)
      · exact Or.inl (Or.inl h)
      · rcases List.mem_cons.mp h2 with rfl | h4
        · exact Or.inl (Or.inr h3)
        · exact Or.inr ⟨r2, h4, h3⟩

theorem edges_setNodeAttrMap {α : Type} (kvs : List (Nat × α))
    (upd : NAttrs → α → NAttrs) (G : Graph) :
    (setNodeAttrMap kvs upd G).edges = G.edges := by
  unfold setNodeAttrMap
  exact foldl_proj_const _ kvs G (fun G2 => G2.edges) (fun G2 kv _ => rfl)

theorem hasNode_setNodeAttrMap {α : Type} (kvs : List (Nat × α))
    (upd : NAttrs → α → NAttrs) (G : Graph) (u : Nat) :
    hasNode (setNodeAttrMap kvs upd G) u = hasNode G u := by
  unfold setNodeAttrMap
  refine foldl_proj_const _ kvs G (fun G2 => hasNode G2 u) ?_
  intro G2 kv _
  show (G2.nodes.map _).any _ = _
  exact any_fst_map G2.nodes
    (fun p => if p.1 == kv.1 then (p.1, upd p.2 kv.2) else p)
    (fun x => by beta_reduce; split <;> rfl) u

theorem hasNode_mapNodeAttrs (f : NAttrs → NAttrs) (G : Graph) (u : Nat) :
    hasNode (mapNodeAttrs f G) u = hasNode G u := by
  show (G.nodes.map _).any _ = _
  exact any_fst_map G.nodes (fun p => (p.1, f p.2)) (fun x => rfl) u

theorem hasNode_nodeStage (rows : List NodeRow) (u : Nat) :
    hasNode (nodeStage rows) u = true ↔ ∃ r ∈ rows, r.id = u := by
  unfold nodeStage
  rw [hasNode_mapNodeAttrs, hasNode_mapNodeAttrs, hasNode_setNodeAttrMap,
    hasNode_foldl_rows]
  simp [hasNode]

theorem edges_nodeStage (rows : List NodeRow) : (nodeStage rows).edges = [] := by
  unfold nodeStage
  show (setNodeAttrMap _ _ _).edges = []
  rw [edges_setNodeAttrMap]
  exact foldl_proj_const _ rows _ (fun G2 => G2.edges)
    (fun G2 r _ => edges_addNodeIfAbsent G2 r.id)

theorem hasEdge_addEdge_self (G : Graph) (a b : Nat) :
    hasEdge (addEdge G a b) a b = true := by
  unfold addEdge
  split
  · assumption
  · exact hasEdge_addEdgeNew_self G a b default

theorem hasEdge_addEdge_mono {G : Graph} {x y : Nat} (a b : Nat)
    (h : hasEdge G x y = true) : hasEdge (addEdge G a b) x y = true := by
  unfold addEdge
  split
  · exact h
  · exact hasEdge_addEdgeNew_mono a b default h

theorem hasNode_addEdgeNew_mono {G : Graph} {u : Nat} (a b : Nat) (at2 : EAttrs)
    (h : hasNode G u = true) : hasNode (addEdgeNew G a b at2) u = true := by
  show hasNode (addNodeIfAbsent (addNodeIfAbsent G a) b) u = true
  exact (hasNode_addNodeIfAbsent _ b u).mpr
    (Or.inl ((hasNode_addNodeIfAbsent _ a u).mpr (Or.inl h)))

theorem hasNode_addEdge_mono {G : Graph} {u : Nat} (a b : Nat)
    (h : hasNode G u = true) : hasNode (addEdge G a b) u = true := by
  unfold addEdge
  split
  · exact h
  · exact hasNode_addEdgeNew_mono a b default h

theorem hasNode_addEdge_sub {G : Graph} {u : Nat} (a b : Nat)
    (h : hasNode (addEdge G a b) u = true) :
    hasNode G u = true ∨ a = u ∨ b = u := by
  unfold addEdge at h
  split at h
  · exact Or.inl h
  · have h2 : hasNode (addNodeIfAbsent (addNodeIfAbsent G a) b) u = true := h
    rcases (hasNode_addNodeIfAbsent _ b u).mp h2 with h3 | h3
    · rcases (hasNode_addNodeIfAbsent _ a u).mp h3 with h4 | h4
      · exact Or.inl h4
      · exact Or.inr (Or.inl h4)
    · exact Or.inr (Or.inr h3)

theorem hasNode_endpoints_addEdge {G : Graph} (a b : Nat)
    (hinv : ∀ e ∈ G.edges, hasNode G e.1 = true ∧ hasNode G e.2.1 = true) :
    hasNode (addEdge G a b) a = true ∧ hasNode (addEdge G a b) b = true := by
  unfold addEdge
  by_cases hEx : hasEdge G a b = true
  · rw [if_pos hEx]
    obtain ⟨e, hmem, hp⟩ := List.any_eq_true.mp hEx
    rcases Bool.or_eq_true_iff.mp hp with h2 | h2
    · obtain ⟨ha, hb⟩ := Bool.and_eq_true_iff.mp h2
      exact ⟨eq_of_beq ha ▸ (hinv e hmem).1, eq_of_beq hb ▸ (hinv e hmem).2⟩
    · obtain ⟨ha, hb⟩ := Bool.and_eq_true_iff.mp h2
      exact ⟨eq_of_beq hb ▸ (hinv e hmem).2, eq_of_beq ha ▸ (hinv e hmem).1⟩
  · rw [if_neg hEx]
    constructor
    · show hasNode (addNodeIfAbsent (addNodeIfAbsent G a) b) a = true
      exact (hasNode_addNodeIfAbsent _ b a).mpr
        (Or.inl ((hasNode_addNodeIfAbsent _ a a).mpr (Or.inr rfl)))
    · show hasNode (addNodeIfAbsent (addNodeIfAbsent G a) b) b = true
      exact (hasNode_addNodeIfAbsent _ b b).mpr (Or.inr rfl)

theorem edgesHaveNodes_addEdge {G : Graph} (a b : Nat)
    (hinv : ∀ e ∈ G.edges, hasNode G e.1 = true ∧ hasNode G e.2.1 = true) :
    ∀ e ∈ (addEdge G a b).edges,
      hasNode (addEdge G a b) e.1 = true ∧ hasNode (addEdge G a b) e.2.1 = true := by
  intro e he
  unfold addEdge at he ⊢
  by_cases hEx : hasEdge G a b = true
  · rw [if_pos hEx] at he ⊢
    exact hinv e he
  · rw [if_neg hEx] at he ⊢
    have hedges : (addEdgeNew G a b default).edges = G.edges ++ [(a, b, default)] := by
      show (addNodeIfAbsent (addNodeIfAbsent G a) b).edges ++ _ = _
      rw [edges_addNodeIfAbsent, edges_addNodeIfAbsent]
    rw [hedges] at he
    rcases List.mem_append.mp he with h | h
    · exact ⟨hasNode_addEdgeNew_mono a b default (hinv e h).1,
        hasNode_addEdgeNew_mono a b default (hinv e h).2⟩
    · rcases List.mem_singleton.mp h with rfl
      constructor
      · show hasNode (addNodeIfAbsent (addNodeIfAbsent G a) b) a = true
        exact (hasNode_addNodeIfAbsent _ b a).mpr
          (Or.inl ((hasNode_addNodeIfAbsent _ a a).mpr (Or.inr rfl)))
      · show hasNode (addNodeIfAbsent (addNodeIfAbsent G a) b) b = true
        exact (hasNode_addNodeIfAbsent _ b b).mpr (Or.inr rfl)

theorem foldl_addEdge_hasNode_mono (ers : List EdgeRow) {G : Graph} {u : Nat}
    (h : hasNode G u = true) :
    hasNode (ers.foldl (fun G2 er => addEdge G2 er.source er.target) G) u = true :=
  foldl_pres _ (fun b => hasNode b u = true) ers
    (fun b a _ hb => hasNode_addEdge_mono _ _ hb) G h

theorem foldl_addEdge_hasEdge_mono (ers : List EdgeRow) {G : Graph} {x y : Nat}
    (h : hasEdge G x y = true) :
    hasEdge (ers.foldl (fun G2 er => addEdge G2 er.source er.target) G) x y = true :=
  foldl_pres _ (fun b => hasEdge b x y = true) ers
    (fun b a _ hb => hasEdge_addEdge_mono _ _ hb) G h

theorem foldl_addEdge_sub (ers : List EdgeRow) (G : Graph) (u : Nat)
    (h : hasNode (ers.foldl (fun G2 er => addEdge G2 er.source er.target) G) u = true) :
    hasNode G u = true ∨ ∃ er ∈ ers, er.source = u ∨ er.target = u := by
  induction ers generalizing G with
  | nil => exact Or.inl h
  | cons er t ih =>
    rw [List.foldl_cons] at h
    rcases ih _ h with h2 | ⟨er2, hm, he⟩
    · rcases hasNode_addEdge_sub _ _ h2 with h3 | h3 | h3
      · exact Or.inl h3
      · exact Or.inr ⟨er, List.mem_cons_self er t, Or.inl h3⟩
      · exact Or.inr ⟨er, List.mem_cons_self er t, Or.inr h3⟩
    · exact Or.inr ⟨er2, List.mem_cons_of_mem er hm, he⟩

theorem foldl_addEdge_complete (ers : List EdgeRow) (G : Graph)
    (hinv : ∀ e ∈ G.edges, hasNode G e.1 = true ∧ hasNode G e.2.1 = true) :
    ∀ er ∈ ers,
      hasNode (ers.foldl (fun G2 er2 => addEdge G2 er2.source er2.target) G)
          er.source = true
      ∧ hasNode (ers.foldl (fun G2 er2 => addEdge G2 er2.source er2.target) G)
          er.target = true
      ∧ hasEdge (ers.foldl (fun G2 er2 => addEdge G2 er2.source er2.target) G)
          er.source er.target = true := by
  induction ers generalizing G with
  | nil => intro er h; cases h
  | cons er t ih =>
    intro er2 hm
    rw [List.foldl_cons]
    rcases List.mem_cons.mp hm with rfl | hm2
    · obtain ⟨ha, hb⟩ := hasNode_endpoints_addEdge er2.source er2.target hinv
      exact ⟨foldl_addEdge_hasNode_mono t ha, foldl_addEdge_hasNode_mono t hb,
        foldl_addEdge_hasEdge_mono t (hasEdge_addEdge_self G er2.source er2.target)⟩
    · exact ih _ (edgesHaveNodes_addEdge er.source er.target hinv) er2 hm2

theorem hasNode_buildBase (rows : List NodeRow) (ers : List EdgeRow) (u : Nat) :
    hasNode (buildBase rows ers) u
      = hasNode (ers.foldl (fun G2 er => addEdge G2 er.source er.target)
          (nodeStage rows)) u := by
  unfold buildBase
  exact foldl_proj_const _ ers _ (fun G2 => hasNode G2 u) (fun G2 er _ => rfl)

theorem hasEdge_buildBase (rows : List NodeRow) (ers : List EdgeRow) (u v : Nat) :
    hasEdge (buildBase rows ers) u v
      = hasEdge (ers.foldl (fun G2 er => addEdge G2 er.source er.target)
          (nodeStage rows)) u v := by
  unfold buildBase
  refine foldl_proj_const _ ers _ (fun G2 => hasEdge G2 u v) ?_
  intro G2 er _
  show (G2.edges.map _).any _ = _
  exact any_endpoint_map _ _ (fun e => by dsimp only; split <;> exact ⟨rfl, rfl⟩) u v

/-- C4 (amended): the graph built from the two tables is undirected
(edge membership is symmetric), contains the undirected edge
`(source, target)` of every row of the edges table, and its node set is
exactly the `id` values of the nodes table together with the endpoints of
the edge rows — hence exactly the `id` values whenever every edge
endpoint is an `id` value. -/
theorem c4_base_graph (rows : List NodeRow) (ers : List EdgeRow) :
    (∀ u, hasNode (buildBase rows ers) u = true
        ↔ (∃ r ∈ rows, r.id = u) ∨ ∃ er ∈ ers, er.source = u ∨ er.target = u)
    ∧ (∀ er ∈ ers, hasEdge (buildBase rows ers) er.source er.target = true)
    ∧ ∀ u v, hasEdge (buildBase rows ers) u v = hasEdge (buildBase rows ers) v u := by
  have hinv0 : ∀ e ∈ (nodeStage rows).edges,
      hasNode (nodeStage rows) e.1 = true ∧ hasNode (nodeStage rows) e.2.1 = true := by
    intro e he
    rw [edges_nodeStage rows] at he
    cases he
  refine ⟨?_, ?_, ?_⟩
  · intro u
    rw [hasNode_buildBase]
    constructor
    · intro h
      rcases foldl_addEdge_sub ers _ u h with h2 | h2
      · exact Or.inl ((hasNode_nodeStage rows u).mp h2)
      · exact Or.inr h2
    · rintro (h | ⟨er, hm, hcase⟩)
      · exact foldl_addEdge_hasNode_mono ers ((hasNode_nodeStage rows u).mpr h)
      · have h3 := foldl_addEdge_complete ers (nodeStage rows) hinv0 er hm
        rcases hcase with rfl | rfl
        · exact h3.1
        · exact h3.2.1
  · intro er hm
    rw [hasEdge_buildBase]
    exact (foldl_addEdge_complete ers (nodeStage rows) hinv0 er hm).2.2
  · intro u v
    exact hasEdge_symm _ u v

/-- Witness for C4: the edge row `(5, 7)` appears as an undirected edge
of the built graph, in both orientations. -/
theorem c4_witness :
    hasEdge (buildBase [shiftS5] [⟨5, 7⟩]) 5 7 = true
    ∧ hasEdge (buildBase [shiftS5] [⟨5, 7⟩]) 7 5 = true := by
  have h := c4_base_graph [shiftS5] [⟨5, 7⟩]
  have he : hasEdge (buildBase [shiftS5] [⟨5, 7⟩]) 5 7 = true :=
    h.2.1 ⟨5, 7⟩ (List.mem_singleton.mpr rfl)
  refine ⟨he, ?_⟩
  rw [← h.2.2 5 7]
  exact he

/-! Lemmas about the fallible edge-attribute passes. -/

theorem mapMO_spec {α β : Type} (F : α → Option β) (l : List α)
    (h : ∀ a ∈ l, ∃ b, F a = some b) :
    ∃ l2, mapMO F l = some l2 ∧ List.Forall₂ (fun a b => F a = some b) l l2 := by
  induction l with
  | nil => exact ⟨[], rfl, List.Forall₂.nil⟩
  | cons a t ih =>
    obtain ⟨b, hb⟩ := h a (List.mem_cons_self a t)
    obtain ⟨t2, ht2, hf⟩ := ih fun a2 ha2 => h a2 (List.mem_cons_of_mem a ha2)
    refine ⟨b :: t2, ?_, List.Forall₂.cons hb hf⟩
    simp [mapMO, hb, ht2]

theorem forall2_mem_right {α β : Type} {R : α → β → Prop} {l : List α} {l2 : List β}
    (h : List.Forall₂ R l l2) : ∀ b ∈ l2, ∃ a ∈ l, R a b := by
  induction h with
  | nil => intro b hb; cases hb
  | cons hR ht ih =>
    intro b hb
    rcases List.mem_cons.mp hb with rfl | hb2
    · exact ⟨_, List.mem_cons_self _ _, hR⟩
    · obtain ⟨a, ha, hRa⟩ := ih b hb2
      exact ⟨a, List.mem_cons_of_mem _ ha, hRa⟩

theorem forall2_comp {α : Type} {R : α → α → Prop}
    (htrans : ∀ a b c, R a b → R b c → R a c) {l1 l2 l3 : List α}
    (h12 : List.Forall₂ R l1 l2) (h23 : List.Forall₂ R l2 l3) :
    List.Forall₂ R l1 l3 := by
  induction h12 generalizing l3 with
  | nil => cases h23; exact List.Forall₂.nil
  | cons h1 h2 ih =>
    cases h23 with
    | cons h3 h4 => exact List.Forall₂.cons (htrans _ _ _ h1 h3) (ih h4)

theorem hasEdge_eq_of_forall2 {l l2 : List (Nat × Nat × EAttrs)}
    (h : List.Forall₂ (fun e e2 => e2.1 = e.1 ∧ e2.2.1 = e.2.1) l l2) (u v : Nat) :
    (l2.any fun e => (e.1 == u && e.2.1 == v) || (e.1 == v && e.2.1 == u))
      = l.any fun e => (e.1 == u && e.2.1 == v) || (e.1 == v && e.2.1 == u) := by
  induction h with
  | nil => rfl
  | cons h1 h2 ih => simp only [List.any_cons, ih, h1.1, h1.2]

theorem mapDummyEdges_spec {α : Type} (f : Nat → Option α) (upd : EAttrs → α → EAttrs)
    (G : Graph)
    (hf : ∀ e ∈ G.edges, ∀ d, e.2.2.dummy = some d → ∃ x, f d = some x) :
    ∃ G2, mapDummyEdges f upd G = some G2 ∧ G2.nodes = G.nodes ∧
      List.Forall₂
        (fun e e2 =>
          ((e.2.2.dummy = none ∧ e2 = e)
            ∨ ∃ d x, e.2.2.dummy = some d ∧ f d = some x
                ∧ e2 = (e.1, e.2.1, upd e.2.2 x)))
        G.edges G2.edges := by
  have hsucc : ∀ e ∈ G.edges, ∃ b,
      (match e.2.2.dummy with
        | none => some e
        | some d => (f d).map fun x => (e.1, e.2.1, upd e.2.2 x)) = some b := by
    intro e he
    cases hd : e.2.2.dummy with
    | none => exact ⟨e, rfl⟩
    | some d =>
      obtain ⟨x, hx⟩ := hf e he d hd
      exact ⟨(e.1, e.2.1, upd e.2.2 x), by dsimp only; rw [hx]; rfl⟩
  obtain ⟨l2, hl2, hfa⟩ := mapMO_spec _ G.edges hsucc
  refine ⟨⟨G.nodes, l2⟩, ?_, rfl, ?_⟩
  · unfold mapDummyEdges
    rw [hl2]
    rfl
  · refine hfa.imp ?_
    intro e e2 hF
    have hF2 : (match e.2.2.dummy with
        | none => some e
        | some d => (f d).map fun x => (e.1, e.2.1, upd e.2.2 x)) = some e2 := hF
    cases hd : e.2.2.dummy with
    | none =>
      rw [hd] at hF2
      dsimp only at hF2
      simp only [Option.some.injEq] at hF2
      exact Or.inl ⟨rfl, hF2.symm⟩
    | some d =>
      rw [hd] at hF2
      dsimp only at hF2
      cases hx : f d with
      | none =>
        rw [hx] at hF2
        cases hF2
      | some x =>
        rw [hx] at hF2
        dsimp only [Option.map] at hF2
        simp only [Option.some.injEq] at hF2
        exact Or.inr ⟨d, x, rfl, hx, hF2.symm⟩

theorem mapEtypeEdges_spec {α : Type} (f : String → Option α)
    (upd : EAttrs → α → EAttrs) (G : Graph)
    (hf : ∀ e ∈ G.edges, ∀ t, e.2.2.edge_type = some t → ∃ x, f t = some x) :
    ∃ G2, mapEtypeEdges f upd G = some G2 ∧ G2.nodes = G.nodes ∧
      List.Forall₂
        (fun e e2 =>
          ((e.2.2.edge_type = none ∧ e2 = e)
            ∨ ∃ t x, e.2.2.edge_type = some t ∧ f t = some x
                ∧ e2 = (e.1, e.2.1, upd e.2.2 x)))
        G.edges G2.edges := by
  have hsucc : ∀ e ∈ G.edges, ∃ b,
      (match e.2.2.edge_type with
        | none => some e
        | some t => (f t).map fun x => (e.1, e.2.1, upd e.2.2 x)) = some b := by
    intro e he
    cases hd : e.2.2.edge_type with
    | none => exact ⟨e, rfl⟩
    | some t =>
      obtain ⟨x, hx⟩ := hf e he t hd
      exact ⟨(e.1, e.2.1, upd e.2.2 x), by dsimp only; rw [hx]; rfl⟩
  obtain ⟨l2, hl2, hfa⟩ := mapMO_spec _ G.edges hsucc
  refine ⟨⟨G.nodes, l2⟩, ?_, rfl, ?_⟩
  · unfold mapEtypeEdges
    rw [hl2]
    rfl
  · refine hfa.imp ?_
    intro e e2 hF
    have hF2 : (match e.2.2.edge_type with
        | none => some e
        | some t => (f t).map fun x => (e.1, e.2.1, upd e.2.2 x)) = some e2 := hF
    cases hd : e.2.2.edge_type with
    | none =>
      rw [hd] at hF2
      dsimp only at hF2
      simp only [Option.some.injEq] at hF2
      exact Or.inl ⟨rfl, hF2.symm⟩
    | some t =>
      rw [hd] at hF2
      dsimp only at hF2
      cases hx : f t with
      | none =>
        rw [hx] at hF2
        cases hF2
      | some x =>
        rw [hx] at hF2
        dsimp only [Option.map] at hF2
        simp only [Option.some.injEq] at hF2
        exact Or.inr ⟨t, x, rfl, hx, hF2.symm⟩

/-! Specs for the dummy-keyed alpha/weight tab passes. -/

theorem dummyMap_succeeds {α : Type} (x y : α) {G : Graph}
    (hd : ∀ e ∈ G.edges,
      e.2.2.dummy = none ∨ e.2.2.dummy = some 0 ∨ e.2.2.dummy = some 1) :
    ∀ e ∈ G.edges, ∀ d, e.2.2.dummy = some d → ∃ z, dummyMap x y d = some z := by
  intro e he d hdd
  rcases hd e he with h | h | h
  · rw [hdd] at h
    cases h
  · rw [hdd] at h
    injection h with h2
    subst h2
    exact ⟨x, rfl⟩
  · rw [hdd] at h
    injection h with h2
    subst h2
    exact ⟨y, rfl⟩

theorem dummyMap_inv {α : Type} {x y z : α} {d : Nat} (h : dummyMap x y d = some z) :
    (d = 0 ∧ z = x) ∨ (d = 1 ∧ z = y) := by
  unfold dummyMap at h
  split at h
  case isTrue h0 =>
    injection h with h2
    exact Or.inl ⟨eq_of_beq h0, h2.symm⟩
  case isFalse h0 =>
    split at h
    case isTrue h1 =>
      injection h with h2
      exact Or.inr ⟨eq_of_beq h1, h2.symm⟩
    case isFalse h1 => cases h

theorem dummyVal_pres {α : Type} {f : Nat → Option α} {upd : EAttrs → α → EAttrs}
    (hupd : ∀ a x, (upd a x).dummy = a.dummy) {G G2 : Graph}
    (hrel : List.Forall₂
      (fun e e2 => ((e.2.2.dummy = none ∧ e2 = e)
        ∨ ∃ d x, e.2.2.dummy = some d ∧ f d = some x
            ∧ e2 = (e.1, e.2.1, upd e.2.2 x)))
      G.edges G2.edges)
    (hd : ∀ e ∈ G.edges,
      e.2.2.dummy = none ∨ e.2.2.dummy = some 0 ∨ e.2.2.dummy = some 1) :
    ∀ e2 ∈ G2.edges,
      e2.2.2.dummy = none ∨ e2.2.2.dummy = some 0 ∨ e2.2.2.dummy = some 1 := by
  intro e2 he2
  obtain ⟨e, he, hrel2⟩ := forall2_mem_right hrel e2 he2
  rcases hrel2 with ⟨hn, h2⟩ | ⟨d, x, hdd, hx, h2⟩
  · rw [h2]
    exact hd e he
  · rw [h2]
    show (upd e.2.2 x).dummy = none ∨ (upd e.2.2 x).dummy = some 0
        ∨ (upd e.2.2 x).dummy = some 1
    rw [hupd]
    exact hd e he

theorem dummy_alpha_weight_passes (a0 a1 w0 w1 : ℚ) (G : Graph)
    (hd : ∀ e ∈ G.edges,
      e.2.2.dummy = none ∨ e.2.2.dummy = some 0 ∨ e.2.2.dummy = some 1) :
    ∃ G2,
      (do
        let G1 ← mapDummyEdges (dummyMap a0 a1)
          (fun a q => { a with alpha := some q }) G
        mapDummyEdges (dummyMap w0 w1)
          (fun a q => { a with weight := some q }) G1) = some G2
      ∧ ∀ e ∈ G2.edges,
          (e.2.2.dummy = some 0 → e.2.2.alpha = some a0 ∧ e.2.2.weight = some w0)
          ∧ (e.2.2.dummy = some 1 → e.2.2.alpha = some a1 ∧ e.2.2.weight = some w1) := by
  obtain ⟨G1, h1, hn1, hrel1⟩ :=
    mapDummyEdges_spec (dummyMap a0 a1) (fun a q => { a with alpha := some q }) G
      (dummyMap_succeeds a0 a1 hd)
  have hd1 := @dummyVal_pres ℚ (dummyMap a0 a1) (fun a q => { a with alpha := some q })
    (fun a x => rfl) G G1 hrel1 hd
  obtain ⟨G2, h2, hn2, hrel2⟩ :=
    mapDummyEdges_spec (dummyMap w0 w1) (fun a q => { a with weight := some q }) G1
      (dummyMap_succeeds w0 w1 hd1)
  refine ⟨G2, ?_, ?_⟩
  · rw [h1]
    exact h2
  · intro e2 he2
    obtain ⟨e1, he1, hr2⟩ := forall2_mem_right hrel2 e2 he2
    obtain ⟨e0, he0, hr1⟩ := forall2_mem_right hrel1 e1 he1
    have halpha : ∀ d : Nat, e1.2.2.dummy = some d →
        (d = 0 → e1.2.2.alpha = some a0) ∧ (d = 1 → e1.2.2.alpha = some a1) := by
      intro d hdd
      rcases hr1 with ⟨hn, rfl⟩ | ⟨d0, x0, hdd0, hx0, rfl⟩
      · rw [hn] at hdd
        cases hdd
      · have hdum : e0.2.2.dummy = some d := by
          have : ({ e0.2.2 with alpha := some x0 } : EAttrs).dummy = some d := hdd
          exact this
        rw [hdd0] at hdum
        injection hdum with h3
        subst h3
        rcases dummyMap_inv hx0 with ⟨h4, h5⟩ | ⟨h4, h5⟩
        · subst h4
          subst h5
          exact ⟨fun _ => rfl, fun h => by cases h⟩
        · subst h4
          subst h5
          exact ⟨(fun h => by cases h), fun _ => rfl⟩
    rcases hr2 with ⟨hn, rfl⟩ | ⟨d, x, hdd, hx, rfl⟩
    · constructor
      · intro h0
        rw [hn] at h0
        cases h0
      · intro h1b
        rw [hn] at h1b
        cases h1b
    · have hget := halpha d hdd
      have hdum2 : ({ e1.2.2 with weight := some x } : EAttrs).dummy
          = e1.2.2.dummy := rfl
      constructor
      · intro h0
        have h0b : e1.2.2.dummy = some 0 := by
          rw [← hdum2]
          exact h0
        rw [hdd] at h0b
        injection h0b with h3
        subst h3
        rcases dummyMap_inv hx with ⟨h4, h5⟩ | ⟨h4, h5⟩
        · subst h5
          exact ⟨hget.1 rfl, rfl⟩
        · cases h4
      · intro h1b
        have h1c : e1.2.2.dummy = some 1 := by
          rw [← hdum2]
          exact h1b
        rw [hdd] at h1c
        injection h1c with h3
        subst h3
        rcases dummyMap_inv hx with ⟨h4, h5⟩ | ⟨h4, h5⟩
        · cases h4
        · subst h5
          exact ⟨hget.2 rfl, rfl⟩

theorem groupTabPass_entries (g : String) (G : Graph) :
    ∀ e2 ∈ (groupTabPass g G).edges, ∀ t, e2.2.2.edge_type = some t →
      (t = g → e2.2.2.alpha = some (1 / 5) ∧ e2.2.2.weight = some 1)
      ∧ (t ≠ g → e2.2.2.alpha = some 0 ∧ e2.2.2.weight = some 0) := by
  intro e2 he2 t ht
  obtain ⟨e, he, hFe⟩ := List.mem_map.mp he2
  cases hety : e.2.2.edge_type with
  | none =>
    rw [← hFe] at ht
    rw [hety] at ht
    dsimp only at ht
    rw [hety] at ht
    cases ht
  | some t0 =>
    rw [← hFe] at ht ⊢
    rw [hety] at ht ⊢
    dsimp only at ht ⊢
    rw [hety] at ht
    injection ht with h2
    subst h2
    constructor
    · intro hg
      subst hg
      simp
    · intro hne
      have hb : (t0 == g) = false := by
        simpa using hne
      simp [hb]

/-- C5: edge filtering before the tabs.  Provided every `dummy` value is
0 or 1 (edges without the attribute are skipped), the `Contact Traces`
pass succeeds and gives dummy edges alpha 0 and weight 0 while dummy-0
edges keep alpha 1 and weight 1; the `Groups` pass succeeds and gives
dummy-0 edges alpha 0 and weight 0 and dummy-1 edges alpha 0.2 and weight
1; and the per-group pass for `g` gives edges of `edge_type` `g` alpha
0.2 and weight 1 and every other edge carrying an `edge_type` alpha 0 and
weight 0. -/
theorem c5_tab_filters (G : Graph)
    (hd : ∀ e ∈ G.edges,
      e.2.2.dummy = none ∨ e.2.2.dummy = some 0 ∨ e.2.2.dummy = some 1) :
    (∃ G2, contactTabPass G = some G2
       ∧ ∀ e ∈ G2.edges,
           (e.2.2.dummy = some 1 → e.2.2.alpha = some 0 ∧ e.2.2.weight = some 0)
           ∧ (e.2.2.dummy = some 0 → e.2.2.alpha = some 1 ∧ e.2.2.weight = some 1))
    ∧ (∃ G3, groupsTabPass G = some G3
       ∧ ∀ e ∈ G3.edges,
           (e.2.2.dummy = some 0 → e.2.2.alpha = some 0 ∧ e.2.2.weight = some 0)
           ∧ (e.2.2.dummy = some 1 →
               e.2.2.alpha = some (1 / 5) ∧ e.2.2.weight = some 1))
    ∧ ∀ g ∈ groups, ∀ e ∈ (groupTabPass g G).edges, ∀ t,
        e.2.2.edge_type = some t →
        (t = g → e.2.2.alpha = some (1 / 5) ∧ e.2.2.weight = some 1)
        ∧ (t ≠ g → e.2.2.alpha = some 0 ∧ e.2.2.weight = some 0) := by
  refine ⟨?_, ?_, ?_⟩
  · obtain ⟨G2, hG2, hprops⟩ := dummy_alpha_weight_passes 1 0 1 0 G hd
    exact ⟨G2, hG2, fun e he => ⟨(hprops e he).2, (hprops e he).1⟩⟩
  · obtain ⟨G3, hG3, hprops⟩ := dummy_alpha_weight_passes 0 (1 / 5) 0 1 G hd
    exact ⟨G3, hG3, fun e he => ⟨(hprops e he).1, (hprops e he).2⟩⟩
  · intro g _
    exact groupTabPass_entries g G

/-- Witness for C5 at the concrete one-edge graph: the Contact Traces
pass succeeds and filters the dummy edge. -/
theorem c5_witness :
    ∃ G2, contactTabPass sampleTabGraph = some G2
      ∧ ∀ e ∈ G2.edges,
          (e.2.2.dummy = some 1 → e.2.2.alpha = some 0 ∧ e.2.2.weight = some 0)
          ∧ (e.2.2.dummy = some 0 → e.2.2.alpha = some 1 ∧ e.2.2.weight = some 1) :=
  (c5_tab_filters sampleTabGraph (by decide)).1

/-! Spec of the attribute stage (lines 226-252). -/

theorem carry_trans :
    ∀ a b c : Nat × Nat × EAttrs,
      (b.1 = a.1 ∧ b.2.1 = a.2.1 ∧ b.2.2.dummy = a.2.2.dummy
        ∧ b.2.2.edge_type = a.2.2.edge_type
        ∧ (a.2.2.dummy = none ∧ a.2.2.edge_type = none → b = a)) →
      (c.1 = b.1 ∧ c.2.1 = b.2.1 ∧ c.2.2.dummy = b.2.2.dummy
        ∧ c.2.2.edge_type = b.2.2.edge_type
        ∧ (b.2.2.dummy = none ∧ b.2.2.edge_type = none → c = b)) →
      c.1 = a.1 ∧ c.2.1 = a.2.1 ∧ c.2.2.dummy = a.2.2.dummy
        ∧ c.2.2.edge_type = a.2.2.edge_type
        ∧ (a.2.2.dummy = none ∧ a.2.2.edge_type = none → c = a) := by
  intro a b c hab hbc
  refine ⟨hbc.1.trans hab.1, hbc.2.1.trans hab.2.1, hbc.2.2.1.trans hab.2.2.1,
    hbc.2.2.2.1.trans hab.2.2.2.1, ?_⟩
  rintro ⟨hdn, htn⟩
  have hb : b = a := hab.2.2.2.2 ⟨hdn, htn⟩
  have hc : c = b := by
    refine hbc.2.2.2.2 ⟨?_, ?_⟩
    · rw [hab.2.2.1, hdn]
    · rw [hab.2.2.2.1, htn]
  rw [hc, hb]

theorem carry_of_dummy_rel {α : Type} {f : Nat → Option α} {upd : EAttrs → α → EAttrs}
    (h1 : ∀ a x, (upd a x).dummy = a.dummy)
    (h2 : ∀ a x, (upd a x).edge_type = a.edge_type)
    {l l2 : List (Nat × Nat × EAttrs)}
    (hrel : List.Forall₂
      (fun e e2 => ((e.2.2.dummy = none ∧ e2 = e)
        ∨ ∃ d x, e.2.2.dummy = some d ∧ f d = some x
            ∧ e2 = (e.1, e.2.1, upd e.2.2 x))) l l2) :
    List.Forall₂
      (fun e e2 => e2.1 = e.1 ∧ e2.2.1 = e.2.1 ∧ e2.2.2.dummy = e.2.2.dummy
        ∧ e2.2.2.edge_type = e.2.2.edge_type
        ∧ (e.2.2.dummy = none ∧ e.2.2.edge_type = none → e2 = e)) l l2 := by
  refine hrel.imp ?_
  intro e e2 h
  rcases h with ⟨hn, h3⟩ | ⟨d, x, hdd, hx, h3⟩
  · subst h3
    exact ⟨rfl, rfl, rfl, rfl, fun _ => rfl⟩
  · subst h3
    refine ⟨rfl, rfl, h1 _ _, h2 _ _, ?_⟩
    rintro ⟨hnone, _⟩
    rw [hdd] at hnone
    cases hnone

theorem carry_of_etype_rel {α : Type} {f : String → Option α}
    {upd : EAttrs → α → EAttrs}
    (h1 : ∀ a x, (upd a x).dummy = a.dummy)
    (h2 : ∀ a x, (upd a x).edge_type = a.edge_type)
    {l l2 : List (Nat × Nat × EAttrs)}
    (hrel : List.Forall₂
      (fun e e2 => ((e.2.2.edge_type = none ∧ e2 = e)
        ∨ ∃ t x, e.2.2.edge_type = some t ∧ f t = some x
            ∧ e2 = (e.1, e.2.1, upd e.2.2 x))) l l2) :
    List.Forall₂
      (fun e e2 => e2.1 = e.1 ∧ e2.2.1 = e.2.1 ∧ e2.2.2.dummy = e.2.2.dummy
        ∧ e2.2.2.edge_type = e.2.2.edge_type
        ∧ (e.2.2.dummy = none ∧ e.2.2.edge_type = none → e2 = e)) l l2 := by
  refine hrel.imp ?_
  intro e e2 h
  rcases h with ⟨hn, h3⟩ | ⟨t, x, htt, hx, h3⟩
  · subst h3
    exact ⟨rfl, rfl, rfl, rfl, fun _ => rfl⟩
  · subst h3
    refine ⟨rfl, rfl, h1 _ _, h2 _ _, ?_⟩
    rintro ⟨_, hnone⟩
    rw [htt] at hnone
    cases hnone

theorem dummySet_of_carry {l l2 : List (Nat × Nat × EAttrs)}
    (hrel : List.Forall₂
      (fun e e2 => e2.1 = e.1 ∧ e2.2.1 = e.2.1 ∧ e2.2.2.dummy = e.2.2.dummy
        ∧ e2.2.2.edge_type = e.2.2.edge_type
        ∧ (e.2.2.dummy = none ∧ e.2.2.edge_type = none → e2 = e)) l l2)
    (hd : ∀ e ∈ l, e.2.2.dummy = none ∨ e.2.2.dummy = some 0 ∨ e.2.2.dummy = some 1) :
    ∀ e2 ∈ l2, e2.2.2.dummy = none ∨ e2.2.2.dummy = some 0 ∨ e2.2.2.dummy = some 1 := by
  intro e2 he2
  obtain ⟨e, he, hr⟩ := forall2_mem_right hrel e2 he2
  rw [hr.2.2.1]
  exact hd e he

theorem etypeSet_of_carry {l l2 : List (Nat × Nat × EAttrs)}
    (hrel : List.Forall₂
      (fun e e2 => e2.1 = e.1 ∧ e2.2.1 = e.2.1 ∧ e2.2.2.dummy = e.2.2.dummy
        ∧ e2.2.2.edge_type = e.2.2.edge_type
        ∧ (e.2.2.dummy = none ∧ e.2.2.edge_type = none → e2 = e)) l l2)
    (ht : ∀ e ∈ l, e.2.2.edge_type = none ∨ e.2.2.edge_type = some "contact"
        ∨ ∃ g ∈ groups, e.2.2.edge_type = some g) :
    ∀ e2 ∈ l2, e2.2.2.edge_type = none ∨ e2.2.2.edge_type = some "contact"
        ∨ ∃ g ∈ groups, e2.2.2.edge_type = some g := by
  intro e2 he2
  obtain ⟨e, he, hr⟩ := forall2_mem_right hrel e2 he2
  rw [hr.2.2.2.1]
  exact ht e he

theorem edge_type_to_w_lookup (t : String) (ht : t = "contact" ∨ t ∈ groups) :
    ∃ x, edge_type_to_w.lookup t = some x := by
  rcases ht with rfl | hg
  · exact ⟨1, rfl⟩
  · simp only [groups, List.mem_cons, List.not_mem_nil, or_false] at hg
    rcases hg with rfl | rfl | rfl
    · exact ⟨1 / 20, rfl⟩
    · exact ⟨1 / 20, rfl⟩
    · exact ⟨1 / 20, rfl⟩

theorem attrStage_spec (rows : List NodeRow) (G : Graph)
    (hd : ∀ e ∈ G.edges,
      e.2.2.dummy = none ∨ e.2.2.dummy = some 0 ∨ e.2.2.dummy = some 1)
    (ht : ∀ e ∈ G.edges, e.2.2.edge_type = none ∨ e.2.2.edge_type = some "contact"
        ∨ ∃ g ∈ groups, e.2.2.edge_type = some g) :
    ∃ G2, attrStage rows G = some G2
      ∧ (∀ u, hasNode G2 u = hasNode G u)
      ∧ (∀ u v, hasEdge G2 u v = hasEdge G u v)
      ∧ List.Forall₂
          (fun e e2 => e2.1 = e.1 ∧ e2.2.1 = e.2.1 ∧ e2.2.2.dummy = e.2.2.dummy
            ∧ e2.2.2.edge_type = e.2.2.edge_type
            ∧ (e.2.2.dummy = none ∧ e.2.2.edge_type = none → e2 = e))
          G.edges G2.edges := by
  have hegn : (setNodeAttrMap (colorMap rows) (fun a c => { a with color := some c })
      (mapNodeAttrs (fun a => { a with alpha := some 1 })
        (mapNodeAttrs (fun a => { a with size := some 9 }) G))).edges = G.edges := by
    rw [edges_setNodeAttrMap]
    rfl
  have hdGn : ∀ e ∈ (setNodeAttrMap (colorMap rows)
      (fun a c => { a with color := some c })
      (mapNodeAttrs (fun a => { a with alpha := some 1 })
        (mapNodeAttrs (fun a => { a with size := some 9 }) G))).edges,
      e.2.2.dummy = none ∨ e.2.2.dummy = some 0 ∨ e.2.2.dummy = some 1 := by
    intro e he
    rw [hegn] at he
    exact hd e he
  obtain ⟨G1, h1, hn1, hrel1⟩ :=
    mapDummyEdges_spec (dummyMap 1 (1 / 10)) (fun a q => { a with alpha := some q }) _
      (dummyMap_succeeds 1 (1 / 10) hdGn)
  have hc1 := @carry_of_dummy_rel ℚ (dummyMap 1 (1 / 10))
    (fun a q => { a with alpha := some q }) (fun a x => rfl) (fun a x => rfl) _ _ hrel1
  rw [hegn] at hc1
  have hd1 := dummySet_of_carry hc1 hd
  obtain ⟨G2x, h2, hn2, hrel2⟩ :=
    mapDummyEdges_spec (dummyMap [] [5, 5]) (fun a d => { a with dash := some d }) G1
      (dummyMap_succeeds [] [5, 5] hd1)
  have hc2 := @carry_of_dummy_rel (List Nat) (dummyMap [] [5, 5])
    (fun a d => { a with dash := some d }) (fun a x => rfl) (fun a x => rfl) _ _ hrel2
  have hd2 := dummySet_of_carry hc2 hd1
  obtain ⟨G3x, h3, hn3, hrel3⟩ :=
    mapDummyEdges_spec (dummyMap 1 (1 / 20)) (fun a q => { a with weight := some q }) G2x
      (dummyMap_succeeds 1 (1 / 20) hd2)
  have hc3 := @carry_of_dummy_rel ℚ (dummyMap 1 (1 / 20))
    (fun a q => { a with weight := some q }) (fun a x => rfl) (fun a x => rfl) _ _ hrel3
  have ht1 := etypeSet_of_carry hc1 ht
  have ht2 := etypeSet_of_carry hc2 ht1
  have ht3 := etypeSet_of_carry hc3 ht2
  have hfe : ∀ e ∈ G3x.edges, ∀ t, e.2.2.edge_type = some t →
      ∃ x, edge_type_to_w.lookup t = some x := by
    intro e he t htt
    apply edge_type_to_w_lookup
    rcases ht3 e he with hnone | hcontact | ⟨g, hgm, hsome⟩
    · rw [hnone] at htt
      cases htt
    · rw [hcontact] at htt
      injection htt with h4
      exact Or.inl h4.symm
    · rw [hsome] at htt
      injection htt with h4
      rw [← h4]
      exact Or.inr hgm
  obtain ⟨G4, h4, hn4, hrel4⟩ :=
    mapEtypeEdges_spec (fun t => edge_type_to_w.lookup t)
      (fun a q => { a with weight := some q }) G3x hfe
  have hc4 := @carry_of_etype_rel ℚ (fun t => edge_type_to_w.lookup t)
    (fun a q => { a with weight := some q }) (fun a x => rfl) (fun a x => rfl) _ _ hrel4
  have hcomp := forall2_comp carry_trans hc1
    (forall2_comp carry_trans hc2 (forall2_comp carry_trans hc3 hc4))
  refine ⟨G4, ?_, ?_, ?_, hcomp⟩
  · unfold attrStage
    dsimp only
    rw [h1]
    show (do
      let G5 ← mapDummyEdges (dummyMap [] [5, 5])
        (fun a d => { a with dash := some d }) G1
      let G6 ← mapDummyEdges (dummyMap 1 (1 / 20))
        (fun a q => { a with weight := some q }) G5
      mapEtypeEdges (fun t => edge_type_to_w.lookup t)
        (fun a q => { a with weight := some q }) G6) = some G4
    rw [h2]
    show (do
      let G6 ← mapDummyEdges (dummyMap 1 (1 / 20))
        (fun a q => { a with weight := some q }) G2x
      mapEtypeEdges (fun t => edge_type_to_w.lookup t)
        (fun a q => { a with weight := some q }) G6) = some G4
    rw [h3]
    exact h4
  · intro u
    have e4 : hasNode G4 u = hasNode G3x u := by
      unfold hasNode
      rw [hn4]
    have e3 : hasNode G3x u = hasNode G2x u := by
      unfold hasNode
      rw [hn3]
    have e2b : hasNode G2x u = hasNode G1 u := by
      unfold hasNode
      rw [hn2]
    have e1b : hasNode G1 u
        = hasNode (setNodeAttrMap (colorMap rows) (fun a c => { a with color := some c })
            (mapNodeAttrs (fun a => { a with alpha := some 1 })
              (mapNodeAttrs (fun a => { a with size := some 9 }) G))) u := by
      unfold hasNode
      rw [hn1]
    rw [e4, e3, e2b, e1b, hasNode_setNodeAttrMap, hasNode_mapNodeAttrs,
      hasNode_mapNodeAttrs]
  · intro u v
    have hend := hcomp.imp
      (fun e e2 h => And.intro h.1 h.2.1 :
        ∀ e e2, _ → e2.1 = e.1 ∧ e2.2.1 = e.2.1)
    exact hasEdge_eq_of_forall2 hend u v

/-- C9: under the precondition that every present `dummy` attribute is 0
or 1 and every present `edge_type` attribute is `contact` or one of the
group columns, the attribute-assignment passes of lines 226-252 never
fail with a missing-key error, and an edge carrying neither attribute
passes through entirely unchanged (it is skipped by every lookup pass). -/
theorem c9_attr_passes (rows : List NodeRow) (G : Graph)
    (hd : ∀ e ∈ G.edges,
      e.2.2.dummy = none ∨ e.2.2.dummy = some 0 ∨ e.2.2.dummy = some 1)
    (ht : ∀ e ∈ G.edges, e.2.2.edge_type = none ∨ e.2.2.edge_type = some "contact"
        ∨ ∃ g ∈ groups, e.2.2.edge_type = some g) :
    ∃ G2, attrStage rows G = some G2
      ∧ List.Forall₂
          (fun e e2 => e2.1 = e.1 ∧ e2.2.1 = e.2.1
            ∧ (e.2.2.dummy = none ∧ e.2.2.edge_type = none → e2 = e))
          G.edges G2.edges := by
  obtain ⟨G2, h, _, _, hrel⟩ := attrStage_spec rows G hd ht
  exact ⟨G2, h, hrel.imp fun e e2 hr => ⟨hr.1, hr.2.1, hr.2.2.2.2⟩⟩

/-- Witness for C9 at a concrete graph whose only edge has `dummy=1` and
`edge_type=group_1`. -/
theorem c9_witness :
    ∃ G2, attrStage [] sampleTabGraph = some G2
      ∧ List.Forall₂
          (fun e e2 => e2.1 = e.1 ∧ e2.2.1 = e.2.1
            ∧ (e.2.2.dummy = none ∧ e.2.2.edge_type = none → e2 = e))
          sampleTabGraph.edges G2.edges :=
  c9_attr_passes [] sampleTabGraph (by decide) (by decide)

/-! Edge-attribute invariants of the base graph, and the preconditions of
the attribute stage for the pipeline graph. -/

theorem hasNode_of_extends {rows : List NodeRow} {G G2 : Graph} {u : Nat}
    (h : Extends rows G G2) (hn : hasNode G u = true) : hasNode G2 u = true := by
  obtain ⟨⟨tn, htn⟩, _⟩ := h
  unfold hasNode at hn ⊢
  rw [htn, List.any_append, hn]
  rfl

theorem buildBase_edge_attrs (rows : List NodeRow) (ers : List EdgeRow) :
    ∀ e ∈ (buildBase rows ers).edges,
      e.2.2.dummy = none ∧ e.2.2.edge_type = none := by
  have h0 : ∀ e ∈ (nodeStage rows).edges,
      e.2.2.dummy = none ∧ e.2.2.edge_type = none := by
    intro e he
    rw [edges_nodeStage] at he
    cases he
  have h1 : ∀ e ∈ (ers.foldl (fun G2 er => addEdge G2 er.source er.target)
      (nodeStage rows)).edges, e.2.2.dummy = none ∧ e.2.2.edge_type = none := by
    refine foldl_pres _
      (fun (G2 : Graph) => ∀ e ∈ G2.edges, e.2.2.dummy = none ∧ e.2.2.edge_type = none)
      ers ?_ _ h0
    intro G2 er _ hP e he
    unfold addEdge at he
    by_cases hEx : hasEdge G2 er.source er.target = true
    · rw [if_pos hEx] at he
      exact hP e he
    · rw [if_neg hEx] at he
      have hedges : (addEdgeNew G2 er.source er.target default).edges
          = G2.edges ++ [(er.source, er.target, default)] := by
        show (addNodeIfAbsent (addNodeIfAbsent G2 er.source) er.target).edges ++ _ = _
        rw [edges_addNodeIfAbsent, edges_addNodeIfAbsent]
      rw [hedges] at he
      rcases List.mem_append.mp he with h2 | h2
      · exact hP e h2
      · rcases List.mem_singleton.mp h2 with rfl
        exact ⟨rfl, rfl⟩
  unfold buildBase
  refine foldl_pres _
    (fun (G2 : Graph) => ∀ e ∈ G2.edges, e.2.2.dummy = none ∧ e.2.2.edge_type = none)
    ers ?_ _ h1
  intro G2 er _ hP e he
  unfold updEdge at he
  obtain ⟨e0, he0, heq⟩ := List.mem_map.mp he
  have hP0 := hP e0 he0
  rcases heq with heq
  by_cases hc : ((e0.1 == er.source && e0.2.1 == er.target)
      || (e0.1 == er.target && e0.2.1 == er.source)) = true
  · rw [if_pos hc] at heq
    rw [← heq]
    exact hP0
  · rw [if_neg hc] at heq
    rw [← heq]
    exact hP0

theorem pipeline_dummy_pre (rows : List NodeRow) (ers : List EdgeRow) :
    ∀ e ∈ (membershipPass rows (buildBase rows ers)).edges,
      e.2.2.dummy = none ∨ e.2.2.dummy = some 0 ∨ e.2.2.dummy = some 1 := by
  obtain ⟨_, ⟨t, ht, hP⟩⟩ := extends_membershipPass rows (buildBase rows ers)
  intro e he
  rw [ht] at he
  rcases List.mem_append.mp he with h | h
  · exact Or.inl (buildBase_edge_attrs rows ers e h).1
  · obtain ⟨_, _, _, g, _, hattr, _⟩ := hP e h
    refine Or.inr (Or.inr ?_)
    rw [hattr]

theorem pipeline_etype_pre (rows : List NodeRow) (ers : List EdgeRow) :
    ∀ e ∈ (membershipPass rows (buildBase rows ers)).edges,
      e.2.2.edge_type = none ∨ e.2.2.edge_type = some "contact"
        ∨ ∃ g ∈ groups, e.2.2.edge_type = some g := by
  obtain ⟨_, ⟨t, ht, hP⟩⟩ := extends_membershipPass rows (buildBase rows ers)
  intro e he
  rw [ht] at he
  rcases List.mem_append.mp he with h | h
  · exact Or.inl (buildBase_edge_attrs rows ers e h).2
  · obtain ⟨_, _, _, g, hgm, hattr, _⟩ := hP e h
    refine Or.inr (Or.inr ⟨g, hgm, ?_⟩)
    rw [hattr]

/-- C7 (amended): `limit` is hard-coded to `False`, so the node-limiting
branch never runs; `main` always produces a graph (`mainGraph` succeeds)
whose edge set contains every input edge row and is derived from (at
least as large as, not always strictly larger than) the input edge set,
and in which every row of the nodes table appears as a node under its
`id`. -/
theorem c7_no_rows_dropped (rows : List NodeRow) (ers : List EdgeRow) :
    limit = false
    ∧ ∃ Gf, mainGraph rows ers = some Gf
        ∧ (∀ r ∈ rows, hasNode Gf r.id = true)
        ∧ (∀ er ∈ ers, hasEdge Gf er.source er.target = true)
        ∧ ∀ u v, hasEdge (buildBase rows ers) u v = true →
            hasEdge Gf u v = true := by
  refine ⟨rfl, ?_⟩
  obtain ⟨Gf, hG, hN, hE, _⟩ :=
    attrStage_spec rows (membershipPass rows (buildBase rows ers))
      (pipeline_dummy_pre rows ers) (pipeline_etype_pre rows ers)
  refine ⟨Gf, hG, ?_, ?_, ?_⟩
  · intro r hr
    rw [hN]
    have hb : hasNode (buildBase rows ers) r.id = true := by
      rw [hasNode_buildBase]
      exact foldl_addEdge_hasNode_mono ers
        ((hasNode_nodeStage rows r.id).mpr ⟨r, hr, rfl⟩)
    exact hasNode_of_extends (extends_membershipPass rows _) hb
  · intro er her
    rw [hE]
    have hinv0 : ∀ e ∈ (nodeStage rows).edges,
        hasNode (nodeStage rows) e.1 = true
          ∧ hasNode (nodeStage rows) e.2.1 = true := by
      intro e he
      rw [edges_nodeStage rows] at he
      cases he
    have hb : hasEdge (buildBase rows ers) er.source er.target = true := by
      rw [hasEdge_buildBase]
      exact (foldl_addEdge_complete ers (nodeStage rows) hinv0 er her).2.2
    exact hasEdge_of_extends (extends_membershipPass rows _) hb
  · intro u v hb
    rw [hE]
    exact hasEdge_of_extends (extends_membershipPass rows _) hb

/-- Witness for C7: on a two-row table with one contact edge, the
pipeline succeeds, both row ids are nodes and the edge row is an edge. -/
theorem c7_witness :
    limit = false
    ∧ ∃ Gf, mainGraph gARows [⟨0, 1⟩] = some Gf
        ∧ hasNode Gf 0 = true ∧ hasNode Gf 1 = true
        ∧ hasEdge Gf 0 1 = true := by
  obtain ⟨hl, Gf, hG, hN, hE, _⟩ := c7_no_rows_dropped gARows [⟨0, 1⟩]
  exact ⟨hl, Gf, hG, hN gA0 (by decide), hN gA1 (by decide), hE ⟨0, 1⟩ (by decide)⟩

end Cotat
